import Mathlib

/-!
# daScript runtime table (`runtime_table.h`, `module_builtin_runtime.cpp`)

A shallow embedding of the open-addressing hash table `TableHash<KeyType>`
(the `USE_ROBIN_HOOD 0` branch) and of the simulation nodes that call it.

* Memory is byte addressed: `Memory` maps an address to the byte stored there.
  A `Table` holds the three pointers `data`, `keys`, `hashes` into that memory,
  exactly as the C++ struct does, so the pointer arithmetic of the source is
  kept as written.
* `uint32_t` arithmetic is written with an explicit `% 2 ^ 32`, an `int` that
  is produced from a `uint32_t` goes through `toInt32`.
* The heap (`MemoryModel::allocate`) is only declared in the sources at hand;
  its answers are a parameter of the `Context`.
* Loops that the source does not bound (`for (;;)` in `reserve`, the
  `goto repeatIt` of `grow`) take a fuel argument; `none` means that the fuel
  ran out before the source returned.
-/

set_option maxRecDepth 100000

namespace das

/-! ## Machine integers and memory -/

/-- Reinterpretation of a 32 bit pattern as a signed `int`. -/
def toInt32 (u : Nat) : Int :=
  if u % 2 ^ 32 < 2 ^ 31 then ((u % 2 ^ 32 : Nat) : Int) else ((u % 2 ^ 32 : Nat) : Int) - 2 ^ 32

/-- Truncation of a value to `uint32_t`. -/
def toUInt32 (z : Int) : Nat := (z % 2 ^ 32).toNat

/-- Byte addressed memory. -/
abbrev Memory := Nat → Nat

/-- Address of `p[index]` for elements of `stride` bytes (`index` may be negative). -/
def elemAddr (p : Nat) (stride : Nat) (index : Int) : Nat :=
  ((p : Int) + (stride : Int) * index).toNat

/-- Little endian load of `n` bytes at address `p`. -/
def load (m : Memory) (p : Nat) : Nat → Nat
  | 0 => 0
  | n + 1 => m p % 256 + 256 * load m (p + 1) n

/-- Little endian store of the low `n` bytes of `v` at address `p`. -/
def store (m : Memory) (p n v : Nat) : Memory :=
  fun a => if p ≤ a ∧ a < p + n then v / 256 ^ (a - p) % 256 else m a

/-- Library `memset(p, byte, n)`. -/
def memset (m : Memory) (p byte n : Nat) : Memory :=
  fun a => if p ≤ a ∧ a < p + n then byte % 256 else m a

/-- Library `memcpy(dst, src, n)` (the source is read before anything is written). -/
def memcpy (m : Memory) (dst src n : Nat) : Memory :=
  fun a => if dst ≤ a ∧ a < dst + n then m (src + (a - dst)) else m a

/-! ## Constants -/

/-- `#define HASH_EMPTY 0xbad0bad0bad0bad0`. -/
def HASH_EMPTY : Nat := 0xbad0bad0bad0bad0

/-- `#define HASH_KILLED 0xdeaddeaddeaddead`. -/
def HASH_KILLED : Nat := 0xdeaddeaddeaddead

/-- `constexpr static uint32_t minCapacity = 64u`. -/
def minCapacity : Nat := 64

/-- `constexpr static uint32_t minLookups = 4u`. -/
def minLookups : Nat := 4

/-! ## Data model -/

/-- Modelled from the spec: the `Table` struct (declared in `arraytype.h`, which is
not among the sources at hand). The fields are the ones `runtime_table.h` and
`module_builtin_runtime.cpp` read and write: three pointers into the buffer, the
unused `distance` pointer, and the four `uint32_t` counters. -/
structure Table where
  data : Nat
  keys : Nat
  hashes : Nat
  distance : Nat
  size : Nat
  capacity : Nat
  lock : Nat
  maxLookups : Nat
deriving DecidableEq

/-- A zero-initialised table (`memset(&tab, 0, sizeof(Table))`). -/
def Table.zero : Table := ⟨0, 0, 0, 0, 0, 0, 0, 0⟩

/-- The part of `Context` the table code touches: the memory, the heap and the
error channel. `heapAnswer n size` is the pointer that the `n`-th call of
`heap.allocate` returns when asked for `size` bytes (`0` is `nullptr`);
`MemoryModel::allocate` itself is only declared in the sources at hand. -/
structure Context where
  mem : Memory
  heapCalls : Nat
  heapAnswer : Nat → Nat → Nat
  errors : List String

/-- Call of `context->heap.allocate(size)`. -/
def Context.allocate (ctx : Context) (size : Nat) : Nat × Context :=
  (ctx.heapAnswer ctx.heapCalls size, { ctx with heapCalls := ctx.heapCalls + 1 })

/-- Call of `context->throw_error(message)`: the message is recorded and the call
returns (the callers here go on to `return false` and `return -1`). -/
def Context.throw_error (ctx : Context) (message : String) : Context :=
  { ctx with errors := ctx.errors ++ [message] }

/-- The template and constructor parameters of `TableHash<KeyType>`:
`valueTypeSize` and `sizeof(KeyType)`. -/
structure TableHash where
  valueTypeSize : Nat
  keySize : Nat
deriving DecidableEq

/-! ## `TableHash` -/

/-- `pHashes[index]`. -/
def readHash (m : Memory) (tab : Table) (index : Int) : Nat :=
  load m (elemAddr tab.hashes 8 index) 8

/-- `pKeys[i]` with `pKeys = (const KeyType *) tab.keys`. -/
def readKey (th : TableHash) (m : Memory) (tab : Table) (i : Int) : Nat :=
  load m (elemAddr tab.keys th.keySize i) th.keySize

/-- `tab.capacity - 1` in `uint32_t`. -/
def capacityMask (tab : Table) : Nat := (tab.capacity + 2 ^ 32 - 1) % 2 ^ 32

/-- `indexForHash`: `int ( hash & (tab.capacity-1) )`. -/
def indexForHash (tab : Table) (hash : Nat) : Int :=
  toInt32 (hash &&& capacityMask tab)

/-- The probe step `index = (index + 1) & (tab.capacity - 1)`. -/
def nextIndex (tab : Table) (index : Int) : Int :=
  toInt32 (toUInt32 (index + 1) &&& capacityMask tab)

/-- `__builtin_clz` on 32 bits, scanning from bit `b - 1` downwards
(`clzFrom 32 0 = 32`, the value the `lzcnt` instruction gives; C leaves it undefined). -/
def clzFrom : Nat → Nat → Nat
  | 0, _ => 0
  | b + 1, x => if 2 ^ b ≤ x then 0 else 1 + clzFrom b x

/-- `computeMaxLookups`: `max(minLookups, 32 - __builtin_clz(capacity-1))`. -/
def computeMaxLookups (capacity : Nat) : Nat :=
  max minLookups (32 - clzFrom 32 ((capacity + 2 ^ 32 - 1) % 2 ^ 32))

/-- The loop of `TableHash::find`; `n` iterations remain, `i` is the loop counter. -/
def findLoop (th : TableHash) (m : Memory) (tab : Table) (key hash : Nat) :
    Nat → Nat → Int → Int
  | 0, _, _ => -1
  | n + 1, i, index =>
    let kh := readHash m tab index
    if kh = HASH_EMPTY then -1
    else if kh = hash ∧ readKey th m tab (toInt32 i) = key then index
    else findLoop th m tab key hash n (i + 1) (nextIndex tab index)

/-- `TableHash::find`. -/
def find (th : TableHash) (m : Memory) (tab : Table) (key hash : Nat) : Int :=
  findLoop th m tab key hash tab.maxLookups 0 (indexForHash tab hash)

/-- The loop of `TableHash::insertNew`. -/
def insertNewLoop (m : Memory) (tab : Table) : Nat → Int → Int
  | 0, _ => -1
  | n + 1, index =>
    if readHash m tab index = HASH_EMPTY then index
    else insertNewLoop m tab n (nextIndex tab index)

/-- `TableHash::insertNew`. -/
def insertNew (m : Memory) (tab : Table) (hash : Nat) : Int :=
  insertNewLoop m tab tab.maxLookups (indexForHash tab hash)

/-- The inner loop of `TableHash::reserve`; `none` when the probe window is
exhausted (the source then falls through to `grow`). -/
def reserveLoop (th : TableHash) (m : Memory) (tab : Table) (key hash : Nat) :
    Nat → Nat → Int → Option Int
  | 0, _, _ => none
  | n + 1, i, index =>
    let kh := readHash m tab index
    if kh = HASH_EMPTY ∨ kh = HASH_KILLED then some index
    else if kh = hash ∧ readKey th m tab (toInt32 i) = key then some index
    else reserveLoop th m tab key hash n (i + 1) (nextIndex tab index)

/-- The loop of `TableHash::erase`: the returned index and the memory afterwards. -/
def eraseLoop (th : TableHash) (m : Memory) (tab : Table) (key hash : Nat) :
    Nat → Nat → Int → Int × Memory
  | 0, _, _ => (-1, m)
  | n + 1, i, index =>
    let kh := readHash m tab index
    if kh = HASH_EMPTY then (-1, m)
    else if kh = hash ∧ readKey th m tab (toInt32 i) = key then
      (index, store m (elemAddr tab.hashes 8 index) 8 HASH_KILLED)
    else eraseLoop th m tab key hash n (i + 1) (nextIndex tab index)

/-- `TableHash::erase`. -/
def erase (th : TableHash) (m : Memory) (tab : Table) (key hash : Nat) : Int × Memory :=
  eraseLoop th m tab key hash tab.maxLookups 0 (indexForHash tab hash)

/-- The freshly allocated table of `grow` (lines 133-146): pointers into the new
buffer at `data`, `size = 0`, the lock carried over, `maxLookups` recomputed. -/
def newTable (th : TableHash) (tab : Table) (newCapacity data : Nat) : Table :=
  { data := data
    keys := data + newCapacity * th.valueTypeSize % 2 ^ 32
    distance := 0
    hashes := (data + newCapacity * th.valueTypeSize % 2 ^ 32) + newCapacity
    size := 0
    capacity := newCapacity
    lock := tab.lock
    maxLookups := computeMaxLookups newCapacity }

/-- The loop `for i != newCapacity: pHashes[i] = HASH_EMPTY` after `n` iterations. -/
def fillHashes (m : Memory) (hashes : Nat) : Nat → Memory
  | 0 => m
  | n + 1 => store (fillHashes m hashes n) (hashes + 8 * n) 8 HASH_EMPTY

/-- The rehash loop of `grow` (lines 158-171), `n` iterations remain and `i` is the
loop counter. The flag is `false` when `insertNew` returned `-1` (the source then
doubles `newCapacity` and jumps to `repeatIt`). -/
def rehashLoop (th : TableHash) (tab newTab : Table) : Nat → Nat → Memory → Bool × Memory
  | 0, _, m => (true, m)
  | n + 1, i, m =>
    let hash := readHash m tab i
    if hash ≠ HASH_KILLED ∧ hash ≠ HASH_EMPTY then
      let index := insertNew m newTab hash
      if index = -1 then (false, m)
      else
        let m1 := store m (elemAddr newTab.keys th.keySize index) th.keySize (readKey th m tab i)
        let m2 := memcpy m1 (newTab.data + toUInt32 index * th.valueTypeSize % 2 ^ 32)
          (tab.data + i * th.valueTypeSize % 2 ^ 32) th.valueTypeSize
        rehashLoop th tab newTab n (i + 1) m2
    else rehashLoop th tab newTab n (i + 1) m

/-- The message `grow` passes to `throw_error`. -/
def outOfHeapMessage : String := "can't grow table, out of heap"

/-- The body of `TableHash::grow` from the label `repeatIt` on. Each jump back to
`repeatIt` uses one unit of fuel. The result is the returned `bool`, the table
`tab` refers to afterwards, and the context. The `assert(0 && ...)` before the jump
is compiled out (release build); the buffer of an abandoned attempt stays allocated,
as in the source. -/
def growFrom (th : TableHash) : Nat → Context → Table → Nat → Option (Bool × Table × Context)
  | 0, _, _, _ => none
  | fuel + 1, ctx, tab, newCapacity =>
    let memSize := newCapacity * (th.valueTypeSize + th.keySize + 8) % 2 ^ 32
    let a := ctx.allocate memSize
    if a.1 = 0 then
      some (false, tab, a.2.throw_error outOfHeapMessage)
    else
      let newTab := newTable th tab newCapacity a.1
      let m1 := memset a.2.mem newTab.data 0 (newCapacity * th.valueTypeSize % 2 ^ 32)
      let m2 := fillHashes m1 newTab.hashes newCapacity
      if tab.size ≠ 0 then
        let r := rehashLoop th tab newTab tab.capacity 0 m2
        if r.1 then some (true, newTab, { a.2 with mem := r.2 })
        else growFrom th fuel { a.2 with mem := r.2 } tab (newCapacity * 2 % 2 ^ 32)
      else some (true, tab, { a.2 with mem := m2 })

/-- `TableHash::grow`: `newCapacity = max(minCapacity, tab.capacity*2)`, then the body. -/
def grow (th : TableHash) (fuel : Nat) (ctx : Context) (tab : Table) :
    Option (Bool × Table × Context) :=
  growFrom th fuel ctx tab (max minCapacity (tab.capacity * 2 % 2 ^ 32))

/-- `TableHash::reserve`. Each round of the `for ( ;; )` loop uses one unit of
`fuel`; `growFuel` is handed to every call of `grow`. The result is the returned
`int`, the table afterwards and the context afterwards. -/
def reserve (th : TableHash) (growFuel : Nat) :
    Nat → Context → Table → Nat → Nat → Option (Int × Table × Context)
  | 0, _, _, _, _ => none
  | fuel + 1, ctx, tab, key, hash =>
    match reserveLoop th ctx.mem tab key hash tab.maxLookups 0 (indexForHash tab hash) with
    | some index => some (index, tab, ctx)
    | none =>
      match grow th growFuel ctx tab with
      | none => none
      | some (false, tab1, ctx1) => some (-1, tab1, ctx1)
      | some (true, tab1, ctx1) => reserve th growFuel fuel ctx1 tab1 key hash

/-! ## Simulation nodes and builtins -/

/-- The pointer `tab->data + index * valueTypeSize` (`int` times `uint32_t`). -/
def valuePtr (th : TableHash) (tab : Table) (index : Int) : Nat :=
  tab.data + toUInt32 index * th.valueTypeSize % 2 ^ 32

/-- `SimNode_TableIndex::compute` (the `insertOrGet` of the specification). `hfn` is
`hash_function`, which is declared in `hash.h` and not among the sources at hand. -/
def SimNode_TableIndex.compute (th : TableHash) (hfn : Nat → Nat) (growFuel fuel : Nat)
    (ctx : Context) (tab : Table) (key : Nat) : Option (Nat × Table × Context) :=
  match reserve th growFuel fuel ctx tab key (hfn key) with
  | none => none
  | some (index, tab1, ctx1) => some (valuePtr th tab1 index, tab1, ctx1)

/-- `SimNode_TableFind::compute`; `0` is `nullptr`. -/
def SimNode_TableFind.compute (th : TableHash) (hfn : Nat → Nat) (m : Memory) (tab : Table)
    (key : Nat) : Nat :=
  let index := find th m tab key (hfn key)
  if index ≠ -1 then valuePtr th tab index else 0

/-- `SimNode_TableErase::tabEval`: the returned `bool` and the memory afterwards. -/
def SimNode_TableErase.tabEval (th : TableHash) (hfn : Nat → Nat) (m : Memory) (tab : Table)
    (key : Nat) : Bool × Memory :=
  let r := erase th m tab key (hfn key)
  (decide (r.1 ≠ -1), r.2)

/-- `builtin_table_size`: `return arr.size` as `int`. -/
def builtin_table_size (arr : Table) : Int := toInt32 arr.size

/-- `builtin_table_capacity`: `return arr.capacity` as `int`. -/
def builtin_table_capacity (arr : Table) : Int := toInt32 arr.capacity

/-- The message `builtin_table_free` passes to `throw_error`. -/
def lockedTableMessage : String := "can't delete locked table"

/-- `builtin_table_free ( tab, szk, szv, context )`. `MemoryModel::free` is only
declared in the sources at hand, so the call `heap.free(tab.data, oldSize)` is
reported as `some (tab.data, oldSize)`, with
`oldSize = tab.capacity*(szk+szv+sizeof(uint32_t))` truncated to `uint32_t`.
The result is the table afterwards (`memset ( &tab, 0, sizeof(Table) )`), the
context, and the call made to `heap.free`, if any. -/
def builtin_table_free (tab : Table) (szk szv : Int) (ctx : Context) :
    Table × Context × Option (Nat × Nat) :=
  if tab.data ≠ 0 then
    if tab.lock = 0 then
      (Table.zero, ctx, some (tab.data, toUInt32 ((tab.capacity : Int) * (szk + szv + 4))))
    else (Table.zero, ctx.throw_error lockedTableMessage, none)
  else (Table.zero, ctx, none)

/-! ## `memory_model.h`: `Page` and `Book` -/

/-- Addition in `uint32_t`. -/
def add32 (a b : Nat) : Nat := (a + b) % 2 ^ 32

/-- Subtraction in `uint32_t`. -/
def sub32 (a b : Nat) : Nat := (a + 2 ^ 32 - b % 2 ^ 32) % 2 ^ 32

/-- The value `-1u` that `Page::allocate` returns when the block does not fit. -/
def NOT_ALLOCATED : Nat := 2 ^ 32 - 1

/-- `struct Page`: the bump cursor `offset` and the live byte count `total`. -/
structure Page where
  offset : Nat
  total : Nat
deriving DecidableEq

/-- `Page::allocate ( size, pageSize )`: the returned location and the page afterwards. -/
def Page.allocate (p : Page) (size pageSize : Nat) : Nat × Page :=
  if add32 p.offset size > pageSize then (NOT_ALLOCATED, p)
  else (sub32 (add32 p.offset size) size, ⟨add32 p.offset size, add32 p.total size⟩)

/-- `Page::free ( loc, size )`. -/
def Page.free (p : Page) (loc size : Nat) : Page :=
  let offset1 := if add32 loc size = p.offset then sub32 p.offset size else p.offset
  let total1 := sub32 p.total size
  if total1 = 0 then ⟨0, total1⟩ else ⟨offset1, total1⟩

/-- `Page::reallocate ( loc, size, nsize, pageSize )`: the returned `bool` and the page
afterwards. -/
def Page.reallocate (p : Page) (loc size nsize pageSize : Nat) : Bool × Page :=
  if add32 loc size ≠ p.offset then (false, p)
  else if add32 loc nsize > pageSize then (false, p)
  else
    let offset1 := add32 (sub32 p.offset size) nsize
    let total1 := add32 (sub32 p.total size) nsize
    (true, if total1 = 0 then ⟨0, total1⟩ else ⟨offset1, total1⟩)

/-- `struct Book`. `data` is the address of the slab, `pages` the array `pages`. -/
structure Book where
  pageSize : Nat
  totalPages : Nat
  totalSize : Nat
  totalFree : Nat
  freePageIndex : Nat
  data : Nat
  pages : List Page
deriving DecidableEq

/-- The constructor `Book ( ps, tp )`; `data` is the address `das_aligned_alloc16`
returns for the slab. -/
def Book.construct (ps tp data : Nat) : Book :=
  { pageSize := ps, totalPages := tp, totalSize := ps * tp % 2 ^ 32,
    totalFree := ps * tp % 2 ^ 32, freePageIndex := 0, data := data,
    pages := List.replicate tp ⟨0, 0⟩ }

/-- `pages[i]`. An index outside the array is undefined in C++; the model reads a
fresh page there. -/
def Book.page (b : Book) (i : Nat) : Page := b.pages.getD i ⟨0, 0⟩

/-- `Book::isOwnPtr`. -/
def Book.isOwnPtr (b : Book) (ptr : Nat) : Bool :=
  decide (ptr ≥ b.data ∧ ptr < b.data + b.totalSize)

/-- The loop of `Book::allocate`, `n` iterations remain. `0` is `nullptr`.
`Page::allocate` works on `pages[freePageIndex]` in place, so the page it leaves is
stored whether or not the returned location counts as a success. -/
def Book.allocateLoop (size : Nat) : Nat → Book → Nat × Book
  | 0, b => (0, b)
  | n + 1, b =>
    let r := (b.page b.freePageIndex).allocate size b.pageSize
    if r.1 ≠ NOT_ALLOCATED then
      (b.data + b.freePageIndex * b.pageSize % 2 ^ 32 + r.1,
        { b with pages := b.pages.set b.freePageIndex r.2, totalFree := sub32 b.totalFree size })
    else
      Book.allocateLoop size n
        { b with pages := b.pages.set b.freePageIndex r.2,
                 freePageIndex :=
                   if add32 b.freePageIndex 1 ≥ b.totalPages then 0
                   else add32 b.freePageIndex 1 }

/-- `Book::allocate ( size )`: the returned pointer (`0` is `nullptr`) and the book
afterwards. -/
def Book.allocate (b : Book) (size : Nat) : Nat × Book :=
  if size > b.pageSize then (0, b)
  else if size > b.totalFree then (0, b)
  else Book.allocateLoop size b.totalPages b

/-- `uint32_t gofs = ptr - data`. -/
def Book.gofs (b : Book) (ptr : Nat) : Nat := toUInt32 ((ptr : Int) - (b.data : Int))

/-- `Book::free ( ptr, size )`. A pointer that does not lie in the slab indexes `pages`
out of bounds, which C++ leaves undefined; the model then leaves the pages as they
are. -/
def Book.free (b : Book) (ptr size : Nat) : Book :=
  let idx := b.gofs ptr / b.pageSize
  let ofs := b.gofs ptr % b.pageSize
  { b with pages := b.pages.set idx ((b.page idx).free ofs size),
           totalFree := add32 b.totalFree size }

/-- `Book::reallocate ( ptr, size, nsize )`: the returned pointer and the book
afterwards. -/
def Book.reallocate (b : Book) (ptr size nsize : Nat) : Nat × Book :=
  if ptr = 0 then b.allocate size
  else if size = nsize then (ptr, b)
  else
    let idx := b.gofs ptr / b.pageSize
    let ofs := b.gofs ptr % b.pageSize
    let r := (b.page idx).reallocate ofs size nsize b.pageSize
    if r.1 then
      (ptr, { b with pages := b.pages.set idx r.2,
                     totalFree := sub32 (add32 b.totalFree size) nsize })
    else (0, b)

/-! ## `KeyCompare` (`runtime_table.h`, lines 16-32) -/

/-- `KeyCompare<KeyType>` of a primitive key type: `a == b`. -/
def KeyCompare (a b : Nat) : Bool := decide (a = b)

/-- Library `strcmp(a, b) == 0` on the bytes of the memory; `none` when no difference
and no terminating zero byte is met within `fuel` bytes. -/
def strcmpEq (m : Memory) : Nat → Nat → Nat → Option Bool
  | 0, _, _ => none
  | fuel + 1, a, b =>
    if m a % 256 ≠ m b % 256 then some false
    else if m a % 256 = 0 then some true
    else strcmpEq m fuel (a + 1) (b + 1)

/-- `KeyCompare<char *>`: a null pointer stands for the string `rts_null` (an `extern`
constant of the runtime, here the parameter `rtsNull`), then `strcmp(A,B)==0`. -/
def KeyCompare.charPtr (m : Memory) (rtsNull fuel a b : Nat) : Option Bool :=
  strcmpEq m fuel (if a ≠ 0 then a else rtsNull) (if b ≠ 0 then b else rtsNull)

/-- `struct MemoryModel`: the page size, the shelf of books, and the map `bigStuff`
from the pointer of an oversized block to its size (as a list of entries). -/
structure MemoryModel where
  pageSize : Nat
  shelf : List Book
  bigStuff : List (Nat × Nat)
deriving DecidableEq

/-- `MemoryModel::isOwnPtr`: some book of the shelf owns the pointer, or the pointer
is a key of `bigStuff`. -/
def MemoryModel.isOwnPtr (h : MemoryModel) (ptr : Nat) : Bool :=
  h.shelf.any (fun book => book.isOwnPtr ptr) || h.bigStuff.any (fun e => decide (e.1 = ptr))

end das

namespace das

/-! ## Fixtures -/

/-- A table with 8 byte keys and 8 byte values (scenario S1). -/
def th88 : TableHash := ⟨8, 8⟩

/-- A heap that satisfies every request: call `n` returns the address `65536 * (n + 1)`. -/
def okHeap : Nat → Nat → Nat := fun n _ => 65536 * (n + 1)

/-- A heap that refuses every request. -/
def nullHeap : Nat → Nat → Nat := fun _ _ => 0

/-- A table of capacity 64 over a buffer at address 4096, laid out as in the data
model: 64 values of 8 bytes, then 64 keys of 8 bytes, then 64 hash slots.
`maxLookups = computeMaxLookups 64 = 6`. -/
def emptyTable64 : Table :=
  { data := 4096, keys := 4096 + 64 * 8, hashes := 4096 + 64 * 8 + 64 * 8, distance := 0,
    size := 0, capacity := 64, lock := 0, maxLookups := computeMaxLookups 64 }

/-- The cleared buffer of `emptyTable64`: values zeroed, every hash slot `HASH_EMPTY`
(what lines 147-151 of `grow` do to a new buffer). -/
def emptyMem64 : Memory :=
  fillHashes (memset (fun _ => 0) emptyTable64.data 0 (64 * 8)) emptyTable64.hashes 64

/-- An entry written into slot `slot`: hash, key and value. -/
def putEntry (th : TableHash) (m : Memory) (tab : Table) (slot hash key value : Nat) : Memory :=
  store (store (store m (elemAddr tab.hashes 8 slot) 8 hash)
    (elemAddr tab.keys th.keySize slot) th.keySize key)
    (valuePtr th tab slot) th.valueTypeSize value

/-- Number of slots among the first `n` whose hash is neither `HASH_EMPTY` nor `HASH_KILLED`. -/
def liveCount (m : Memory) (tab : Table) : Nat → Nat
  | 0 => 0
  | n + 1 =>
    liveCount m tab n +
      (if readHash m tab n ≠ HASH_EMPTY ∧ readHash m tab n ≠ HASH_KILLED then 1 else 0)

/-- The context of scenario S1: the cleared capacity 64 buffer and a heap that
satisfies every request. -/
def ctx64 : Context := ⟨emptyMem64, 0, okHeap, []⟩

/-- A capacity 64 table with `size = 1`; its entry is written by `oneEntryMem`. -/
def oneEntryTable : Table := { emptyTable64 with size := 1 }

/-- Key 128 with hash 128 and value 70 in slot 0, its home slot for capacity 64
(`128 & 63 = 0`) and for capacity 128 (`128 & 127 = 0`). -/
def oneEntryMem : Memory := putEntry th88 emptyMem64 emptyTable64 0 128 128 70

/-- A hash function under which the keys 63 and 4159 collide (both hash to 63). -/
def hashMod4096 : Nat → Nat := fun key => key % 4096

/-- A capacity 64 table with `size = 2`; its slots are written by `collisionMem`. -/
def collisionTable : Table := { emptyTable64 with size := 2 }

/-- Two live entries with hash 63, whose home slot is 63: key 4159 in slot 63 and
key 63 in the next slot of the probe order, slot 0. Slot 1 is a tombstone that still
holds key 63 from an earlier stay (`erase` does not wipe keys). The keys of the live
slots are distinct and each is stored under its own hash. -/
def collisionMem : Memory :=
  putEntry th88 (putEntry th88 (putEntry th88 emptyMem64
    emptyTable64 63 63 4159 1) emptyTable64 0 63 63 2) emptyTable64 1 HASH_KILLED 63 0

/-- A capacity 64 table with `size = 6` and one open iterator (`lock = 1`). -/
def lockedTable : Table := { emptyTable64 with size := 6, lock := 1 }

/-- Six entries in slots 0..5 (hashes 128, 1, 2, 3, 4, 5): the whole probe window
(`maxLookups = 6`) of a key whose home slot is 0. -/
def lockedMem : Memory :=
  putEntry th88 (putEntry th88 (putEntry th88 (putEntry th88 (putEntry th88 (putEntry th88
    emptyMem64 emptyTable64 0 128 128 10) emptyTable64 1 1 1 11) emptyTable64 2 2 2 12)
    emptyTable64 3 3 3 13) emptyTable64 4 4 4 14) emptyTable64 5 5 5 15

/-- Scenario S1 step: `insertOrGet(key)` followed by a write of `value` through the
returned pointer. -/
def insertAndWrite (th : TableHash) (hfn : Nat → Nat) (growFuel fuel : Nat)
    (s : Table × Context) (key value : Nat) : Option (Table × Context) :=
  match SimNode_TableIndex.compute th hfn growFuel fuel s.2 s.1 key with
  | none => none
  | some (p, tab1, ctx1) =>
    some (tab1, { ctx1 with mem := store ctx1.mem p th.valueTypeSize value })

/-- A heap that satisfies exactly the requests for `size` bytes (with the buffer at
address 65536) and refuses every other request. -/
def exactHeap (size : Nat) : Nat → Nat → Nat := fun _ s => if s = size then 65536 else 0

/-- One call on a table: `reserve`, `erase` or `grow`. -/
inductive TableOp where
  | reserve (key hash : Nat)
  | erase (key hash : Nat)
  | grow
deriving DecidableEq

/-- The table and context after one call; `none` when `reserve` or `grow` ran out of
fuel. -/
def TableOp.apply (th : TableHash) (growFuel fuel : Nat) (s : Table × Context) :
    TableOp → Option (Table × Context)
  | .reserve key hash => (das.reserve th growFuel fuel s.2 s.1 key hash).map (fun r => r.2)
  | .erase key hash => some (s.1, { s.2 with mem := (das.erase th s.2.mem s.1 key hash).2 })
  | .grow => (das.grow th growFuel s.2 s.1).map (fun r => r.2)

/-- The page invariant of the data model: `total ≤ offset ≤ pageSize`, and
`total = 0` implies `offset = 0`. -/
def Page.invariant (p : Page) (pageSize : Nat) : Prop :=
  p.total ≤ p.offset ∧ p.offset ≤ pageSize ∧ (p.total = 0 → p.offset = 0)

/-- One call on a page. -/
inductive PageOp where
  | allocate (size : Nat)
  | free (loc size : Nat)
  | reallocate (loc size nsize : Nat)
deriving DecidableEq

/-- A page together with the blocks `(loc, size)` that were returned and are still
live. -/
structure PageRun where
  page : Page
  live : List (Nat × Nat)
deriving DecidableEq

/-- A fresh page: `offset = 0`, `total = 0`, no live block. -/
def PageRun.fresh : PageRun := ⟨⟨0, 0⟩, []⟩

/-- A call is legal when a `free` or `reallocate` names a live block with its own
size. -/
def PageOp.legal (s : PageRun) : PageOp → Bool
  | .allocate _ => true
  | .free loc size => decide ((loc, size) ∈ s.live)
  | .reallocate loc size _ => decide ((loc, size) ∈ s.live)

/-- A call stays within 32 bits when `offset + size` of an `allocate` and
`loc + nsize` of a `reallocate` are below `2^32`. -/
def PageOp.noWrap (s : PageRun) : PageOp → Bool
  | .allocate size => decide (s.page.offset + size < 2 ^ 32)
  | .free _ _ => true
  | .reallocate loc _ nsize => decide (loc + nsize < 2 ^ 32)

/-- The page and the live blocks after one call. -/
def PageOp.apply (pageSize : Nat) (s : PageRun) : PageOp → PageRun
  | .allocate size =>
    let r := s.page.allocate size pageSize
    if r.1 ≠ NOT_ALLOCATED then ⟨r.2, (r.1, size) :: s.live⟩ else ⟨r.2, s.live⟩
  | .free loc size => ⟨s.page.free loc size, s.live.erase (loc, size)⟩
  | .reallocate loc size nsize =>
    let r := s.page.reallocate loc size nsize pageSize
    if r.1 then ⟨r.2, (loc, nsize) :: s.live.erase (loc, size)⟩ else ⟨r.2, s.live⟩

/-- The state after a sequence of calls. -/
def PageRun.run (pageSize : Nat) : PageRun → List PageOp → PageRun
  | s, [] => s
  | s, op :: ops => PageRun.run pageSize (op.apply pageSize s) ops

/-- Every call of the sequence is legal in the state it is made in. -/
def PageRun.legalOps (pageSize : Nat) : PageRun → List PageOp → Bool
  | _, [] => true
  | s, op :: ops => op.legal s && PageRun.legalOps pageSize (op.apply pageSize s) ops

/-- Every call of the sequence stays within 32 bits. -/
def PageRun.noWrapOps (pageSize : Nat) : PageRun → List PageOp → Bool
  | _, [] => true
  | s, op :: ops => op.noWrap s && PageRun.noWrapOps pageSize (op.apply pageSize s) ops

/-- One call on a book. -/
inductive BookOp where
  | allocate (size : Nat)
  | free (ptr size : Nat)
  | reallocate (ptr size nsize : Nat)
deriving DecidableEq

/-- All sizes a call passes are multiples of 16. -/
def BookOp.sizes16 : BookOp → Bool
  | .allocate size => decide (size % 16 = 0)
  | .free _ size => decide (size % 16 = 0)
  | .reallocate _ size nsize => decide (size % 16 = 0 ∧ nsize % 16 = 0)

/-- The book after one call, and the pointer `Book::allocate` returned if the call
reached it (directly, or through `reallocate` with a null pointer). -/
def BookOp.apply (b : Book) : BookOp → Option Nat × Book
  | .allocate size => (some (b.allocate size).1, (b.allocate size).2)
  | .free ptr size => (none, b.free ptr size)
  | .reallocate ptr size nsize =>
    (if ptr = 0 then some (b.reallocate ptr size nsize).1 else none,
      (b.reallocate ptr size nsize).2)

/-- The non-null pointers `Book::allocate` returned during a sequence of calls. -/
def Book.allocated : Book → List BookOp → List Nat
  | _, [] => []
  | b, op :: ops =>
    match (op.apply b).1 with
    | some ptr => if ptr ≠ 0 then ptr :: Book.allocated (op.apply b).2 ops
                  else Book.allocated (op.apply b).2 ops
    | none => Book.allocated (op.apply b).2 ops

/-- A well-formed book state: `pages` has `totalPages` entries whose cursors lie in
the page, the rotation cursor is a page index, `totalSize` is `pageSize × totalPages`,
and neither that product nor `2 × pageSize` needs more than 32 bits. -/
def Book.wellFormed (b : Book) : Prop :=
  b.pages.length = b.totalPages ∧ (∀ p ∈ b.pages, p.offset ≤ b.pageSize) ∧
  b.freePageIndex < b.totalPages ∧ b.totalSize = b.pageSize * b.totalPages ∧
  b.totalSize < 2 ^ 32 ∧ b.pageSize < 2 ^ 31

/-- The invariant carried along a sequence of calls on a page: the page invariant,
every live block ends inside the page, and `total` is the sum of the live sizes. -/
def PageRun.sound (pageSize : Nat) (s : PageRun) : Prop :=
  Page.invariant s.page pageSize ∧ (∀ b ∈ s.live, b.1 + b.2 ≤ pageSize) ∧
    s.page.total = (s.live.map Prod.snd).sum

/-- Every page cursor of the book is a multiple of 16, and so is the page size. -/
def Book.aligned (b : Book) : Prop :=
  b.pageSize % 16 = 0 ∧ ∀ p ∈ b.pages, p.offset % 16 = 0

/-- A fresh book with one page of 4096 bytes at address 65536 after `allocate(16)`
(block A at 65536). -/
def wrapBook1 : Book :=
  { pageSize := 4096, totalPages := 1, totalSize := 4096, totalFree := 4080,
    freePageIndex := 0, data := 65536, pages := [⟨16, 16⟩] }

/-- The same book after a second `allocate(16)` (block B at 65552). -/
def wrapBook2 : Book :=
  { pageSize := 4096, totalPages := 1, totalSize := 4096, totalFree := 4064,
    freePageIndex := 0, data := 65536, pages := [⟨32, 32⟩] }

/-- The same book after `reallocate(B, 16, 2^32 - 16)`: the page cursor is back at 0
and `totalFree` is `4064 + 16 - (2^32 - 16)` in `uint32_t`. -/
def wrapBook3 : Book :=
  { pageSize := 4096, totalPages := 1, totalSize := 4096, totalFree := 4096,
    freePageIndex := 0, data := 65536, pages := [⟨0, 0⟩] }

/-- A fresh book with one page of 4096 bytes at address 65536 after `allocate(4096)`:
the page is full. -/
def fullBook : Book := ((Book.construct 4096 1 65536).allocate 4096).2

/-! ## Definitions for the third group of claims -/

/-- The sum over all pages of `pageSize − page.total`, as an integer. -/
def Book.freeSum (b : Book) : Int :=
  (b.pages.map (fun p => (b.pageSize : Int) - (p.total : Int))).sum

/-- The fields `totalPages` and `totalFree` hold `uint32_t` values. -/
def Book.inRange (b : Book) : Prop := b.totalPages < 2 ^ 32 ∧ b.totalFree < 2 ^ 32

/-- The page indices in the order `Book::allocate` is specified to try them: from
`freePageIndex` on, cyclically. -/
def Book.rotation (b : Book) : List Nat :=
  (List.range b.totalPages).map (fun k => (b.freePageIndex + k) % b.totalPages)

/-- Page `i` accepts a block of `size` bytes: `offset + size ≤ pageSize`. -/
def Book.accepts (b : Book) (size i : Nat) : Bool :=
  decide ((b.page i).offset + size ≤ b.pageSize)

/-- `Book::allocate` as the specification words it: null and no change when
`size > pageSize` or `size > totalFree`; null when every page refuses; otherwise the
block comes from the first accepting page at or cyclically after `freePageIndex`,
`totalFree` drops by `size`, and the pointer is
`data + pageIndex × pageSize + previous offset`. -/
def Book.allocateSpec (b : Book) (size : Nat) : Nat × Book :=
  if size > b.pageSize ∨ size > b.totalFree then (0, b)
  else
    match b.rotation.find? (b.accepts size) with
    | none => (0, b)
    | some i =>
      (b.data + i * b.pageSize + (b.page i).offset,
        { b with pages := b.pages.set i ((b.page i).allocate size b.pageSize).2,
                 totalFree := b.totalFree - size, freePageIndex := i })

/-- `Book::reallocate` for a non-null pointer as the amended specification words it:
no change when `size = nsize`; success exactly when the block is the top of its page
and `loc + nsize ≤ pageSize`, and then the page cursor becomes `loc + nsize` (or 0
when the page's `total` becomes 0) and `totalFree` changes by `size − nsize`; null
and no change otherwise. -/
def Book.reallocateSpec (b : Book) (ptr size nsize : Nat) : Nat × Book :=
  let idx := b.gofs ptr / b.pageSize
  let loc := b.gofs ptr % b.pageSize
  let total1 := add32 (sub32 (b.page idx).total size) nsize
  if size = nsize then (ptr, b)
  else if loc + size = (b.page idx).offset ∧ loc + nsize ≤ b.pageSize then
    (ptr, { b with pages := b.pages.set idx ⟨if total1 = 0 then 0 else loc + nsize, total1⟩,
                   totalFree := sub32 (add32 b.totalFree size) nsize })
  else (0, b)

/-- The slot probed in round `k` of `find`, `reserve` and `erase`. -/
def probeAt (tab : Table) (hash : Nat) : Nat → Int
  | 0 => indexForHash tab hash
  | k + 1 => nextIndex tab (probeAt tab hash k)

/-- The loop of `find` stops in round `k`: the probed slot is `HASH_EMPTY`, or its hash
is the searched one and `pKeys[k]` is the searched key. -/
def findStops (th : TableHash) (m : Memory) (tab : Table) (key hash k : Nat) : Prop :=
  readHash m tab (probeAt tab hash k) = HASH_EMPTY ∨
    (readHash m tab (probeAt tab hash k) = hash ∧ readKey th m tab (toInt32 k) = key)

/-- Slot 0 is a tombstone, slot 1 holds key 64 (hash 64, home slot 0, value 640). -/
def tombstoneFirstMem : Memory :=
  putEntry th88 (putEntry th88 emptyMem64 emptyTable64 0 HASH_KILLED 7 0) emptyTable64 1 64 64 640

/-- The table `grow` builds for 8 byte keys and values with capacity 128 in a buffer
at address 65536 (what `grow` returns for `oneEntryTable`), with two live entries. -/
def grownTable : Table := { newTable th88 oneEntryTable 128 65536 with size := 2 }

/-- The cleared buffer of `grownTable` with the entries (hash 16, key 128, value 1) in
slot 16 and (hash 128, key 7, value 2) in slot 0, written in this order. -/
def grownMem : Memory :=
  putEntry th88 (putEntry th88
    (fillHashes (memset (fun _ => 0) grownTable.data 0 (128 * 8)) grownTable.hashes 128)
    grownTable 16 16 128 1) grownTable 0 128 7 2

/-- A book with three pages of 4096 bytes at address 65536: page 0 holds 4000 bytes,
page 1 holds 100 bytes, page 2 is full, and the rotation cursor is at page 2. -/
def rotBook : Book :=
  { pageSize := 4096, totalPages := 3, totalSize := 12288, totalFree := 4092,
    freePageIndex := 2, data := 65536, pages := [⟨4000, 4000⟩, ⟨100, 100⟩, ⟨4096, 4096⟩] }

/-- A heap whose shelf holds one book, `wrapBook1`: one page of 4096 bytes at address
65536 from which one block of 16 bytes (at 65536) has been allocated. -/
def oneBookHeap : MemoryModel := ⟨4096, [wrapBook1], []⟩

/-! ## Definitions for the fourth group of claims -/

/-- The memory of `oneEntryTable` for string keys: the string "ab" is stored at
address 8192 and again at address 8208, and slot 0 holds the key 8192 (a pointer) with
hash 128 and value 70. The byte at 8224 is 0 (an empty string). -/
def stringKeyMem : Memory :=
  putEntry th88 (store (store emptyMem64 8192 3 0x6261) 8208 3 0x6261) emptyTable64 0 128 8192 70

/-- The page attempts of a reference allocator for `Book::allocate`: `n` attempts
remain, each one a `Page::allocate` on the page at the rotation cursor, the cursor
moving on modulo `totalPages` after a refusal. -/
def Book.allocateAttempts (size : Nat) : Nat → Book → Nat × Book
  | 0, b => (0, b)
  | n + 1, b =>
    if (b.page b.freePageIndex).offset + size ≤ b.pageSize then
      (b.data + b.freePageIndex * b.pageSize + (b.page b.freePageIndex).offset,
        { b with pages := b.pages.set b.freePageIndex
                   ((b.page b.freePageIndex).allocate size b.pageSize).2,
                 totalFree := b.totalFree - size })
    else
      Book.allocateAttempts size n
        { b with freePageIndex := (b.freePageIndex + 1) % b.totalPages }

/-- A reference allocator that makes exactly `attempts` page attempts after the two
size checks. -/
def Book.allocateRef (b : Book) (size attempts : Nat) : Nat × Book :=
  if size > b.pageSize ∨ size > b.totalFree then (0, b)
  else Book.allocateAttempts size attempts b

/-- A book with 17 pages of 16 bytes at address 65536: the pages 0 to 15 are full and
page 16 is empty. -/
def tinyPagesBook : Book :=
  { pageSize := 16, totalPages := 17, totalSize := 272, totalFree := 16, freePageIndex := 0,
    data := 65536, pages := List.replicate 16 ⟨16, 16⟩ ++ [⟨0, 0⟩] }

/-- A book with 3 pages of 64 bytes at address 65536, each page holding 48 bytes. -/
def threePageBook : Book :=
  { pageSize := 64, totalPages := 3, totalSize := 192, totalFree := 48, freePageIndex := 0,
    data := 65536, pages := [⟨48, 48⟩, ⟨48, 48⟩, ⟨48, 48⟩] }

/-- A heap that refuses exactly the requests for `size` bytes and answers every other
request with a buffer at address 65536. -/
def refusingHeap (size : Nat) : Nat → Nat → Nat := fun _ s => if s = size then 0 else 65536

/-- A table with one live entry and capacity `2^27` (8 byte keys and values: a buffer of
`2^27 × 24` bytes, which is below `2^32`). -/
def table2p27 : Table :=
  { data := 4096, keys := 4096 + 2 ^ 27 * 8, hashes := 4096 + 2 ^ 27 * 8 + 2 ^ 27 * 8,
    distance := 0, size := 1, capacity := 2 ^ 27, lock := 0,
    maxLookups := computeMaxLookups (2 ^ 27) }

/-- A table type with 8 byte values and 16 byte keys. -/
def th816 : TableHash := ⟨8, 16⟩

/-- The table `grow` lays out for 16 byte keys and 8 byte values with capacity 64 in a
buffer at address 65536 (`keys = data + 64 * 8`, `hashes = keys + 64`,
`maxLookups = 6`), with seven live entries. The 16 bytes of `pKeys[4]` are the hash
slots 0 and 1, those of `pKeys[5]` are the hash slots 2 and 3. -/
def overlapTable : Table := { newTable th816 Table.zero 64 65536 with size := 7 }

/-- The 16 byte key whose low 8 bytes are 60 and whose high 8 bytes are
`0xdeaddeaddeaddead`. -/
def overlapKey : Nat := 60 + 2 ^ 64 * HASH_KILLED

/-- The cleared buffer of `overlapTable` with the hash slots written: the slots 60 to
63 hold the hashes 124 to 127 (their home slots), the slots 0, 1 and 2 hold hash 60
and slot 3 is a tombstone. -/
def overlapMem : Memory :=
  store (store (store (store (store (store (store (store
    (fillHashes (memset (fun _ => 0) overlapTable.data 0 (64 * 8)) overlapTable.hashes 64)
    (elemAddr overlapTable.hashes 8 60) 8 124)
    (elemAddr overlapTable.hashes 8 61) 8 125)
    (elemAddr overlapTable.hashes 8 62) 8 126)
    (elemAddr overlapTable.hashes 8 63) 8 127)
    (elemAddr overlapTable.hashes 8 0) 8 60)
    (elemAddr overlapTable.hashes 8 1) 8 60)
    (elemAddr overlapTable.hashes 8 2) 8 60)
    (elemAddr overlapTable.hashes 8 3) 8 HASH_KILLED

/-! ## Lemmas about the probe loops -/

theorem eraseLoop_fst (th : TableHash) (m : Memory) (tab : Table) (key hash : Nat) (n i : Nat)
    (index : Int) :
    (eraseLoop th m tab key hash n i index).1 = findLoop th m tab key hash n i index := by
  induction n generalizing i index with
  | zero => rfl
  | succ n ih =>
    simp only [eraseLoop, findLoop]
    split_ifs <;> first | rfl | exact ih _ _

theorem reserve_returns_probe (th : TableHash) (growFuel fuel : Nat) (ctx : Context) (tab : Table)
    (key hash : Nat) (index : Int) (tab1 : Table) (ctx1 : Context)
    (h : reserve th growFuel fuel ctx tab key hash = some (index, tab1, ctx1))
    (hi : index ≠ -1) :
    reserveLoop th ctx1.mem tab1 key hash tab1.maxLookups 0 (indexForHash tab1 hash)
      = some index := by
  induction fuel generalizing ctx tab with
  | zero => simp [reserve] at h
  | succ fuel ih =>
    rw [reserve] at h
    split at h
    · next idx hp =>
      simp only [Option.some.injEq, Prod.mk.injEq] at h
      obtain ⟨rfl, rfl, rfl⟩ := h
      exact hp
    · next hp =>
      split at h
      · simp at h
      · simp only [Option.some.injEq, Prod.mk.injEq] at h
        exact absurd h.1.symm hi
      · exact ih _ _ h

theorem reserve_of_probe (th : TableHash) (growFuel fuel : Nat) (ctx : Context) (tab : Table)
    (key hash : Nat) (index : Int)
    (h : reserveLoop th ctx.mem tab key hash tab.maxLookups 0 (indexForHash tab hash)
      = some index) :
    reserve th growFuel (fuel + 1) ctx tab key hash = some (index, tab, ctx) := by
  rw [reserve, h]

/-! ## Lemmas about `grow` -/

/-- With `tab.size = 0` the rehash and the `swap` are skipped: `grow` returns `true`
and `tab` is what it was. -/
theorem grow_size_zero (th : TableHash) (fuel : Nat) (ctx : Context) (tab : Table)
    (hs : tab.size = 0)
    (hp : ctx.heapAnswer ctx.heapCalls
      (max minCapacity (tab.capacity * 2 % 2 ^ 32) * (th.valueTypeSize + th.keySize + 8) % 2 ^ 32)
        ≠ 0) :
    ∃ m, grow th (fuel + 1) ctx tab
      = some (true, tab, ⟨m, ctx.heapCalls + 1, ctx.heapAnswer, ctx.errors⟩) := by
  simp only [grow, growFrom, Context.allocate]
  rw [if_neg hp]
  simp [hs]

/-- When the first request is refused, `grow` reports the error and returns `false`;
neither the table nor the memory changes. -/
theorem grow_null (th : TableHash) (fuel : Nat) (ctx : Context) (tab : Table)
    (hp : ctx.heapAnswer ctx.heapCalls
      (max minCapacity (tab.capacity * 2 % 2 ^ 32) * (th.valueTypeSize + th.keySize + 8) % 2 ^ 32)
        = 0) :
    grow th (fuel + 1) ctx tab
      = some (false, tab,
          ⟨ctx.mem, ctx.heapCalls + 1, ctx.heapAnswer, ctx.errors ++ [outOfHeapMessage]⟩) := by
  simp only [grow, growFrom, Context.allocate]
  rw [if_pos hp]
  rfl

/-- Whenever `grow` returns `false`, also after jumps back to `repeatIt`, the table
is the one passed in and the last recorded error is the out-of-heap message. -/
theorem growFrom_false (th : TableHash) (fuel : Nat) (ctx : Context) (tab : Table)
    (newCapacity : Nat) (tab1 : Table) (ctx1 : Context)
    (h : growFrom th fuel ctx tab newCapacity = some (false, tab1, ctx1)) :
    tab1 = tab ∧ ctx1.errors = ctx.errors ++ [outOfHeapMessage] := by
  induction fuel generalizing ctx newCapacity with
  | zero => simp [growFrom] at h
  | succ fuel ih =>
    rw [growFrom] at h
    simp only at h
    split_ifs at h with h1 h2 h3
    · simp only [Option.some.injEq, Prod.mk.injEq, true_and] at h
      obtain ⟨rfl, rfl⟩ := h
      exact ⟨rfl, rfl⟩
    · simp at h
    · have h4 := ih _ _ h
      exact ⟨h4.1, h4.2⟩
    · simp at h

/-- On a zero-initialised table with a heap that never refuses, `reserve` runs out
of any amount of fuel. -/
theorem reserve_zero_none (th : TableHash) (growFuel fuel : Nat) (ctx : Context)
    (key hash : Nat) (hheap : ∀ n size, ctx.heapAnswer n size ≠ 0) :
    reserve th growFuel fuel ctx Table.zero key hash = none := by
  induction fuel generalizing ctx with
  | zero => rfl
  | succ fuel ih =>
    rw [reserve]
    have hprobe : reserveLoop th ctx.mem Table.zero key hash Table.zero.maxLookups 0
        (indexForHash Table.zero hash) = none := rfl
    rw [hprobe]
    cases growFuel with
    | zero => rfl
    | succ g =>
      obtain ⟨m, hm⟩ := grow_size_zero th g ctx Table.zero rfl (hheap _ _)
      rw [hm]
      exact ih _ hheap

end das

namespace das

/-! ## The claims -/

/-- C1 (round trip `insertOrGet(k); write(v); find(k) → v`), evaluated on the cleared
capacity 64 table: `insertOrGet(2)` returns the pointer to value slot 2
(`4096 + 2 * 8`) and leaves the table as it was, 200 is written through the
pointer, and `find(2)` then returns `nullptr`: `reserve` hands out the slot without
storing the hash or the key, so the slot is still `HASH_EMPTY`. -/
theorem insertOrGet_write_find_returns_null :
    (SimNode_TableIndex.compute th88 (fun k => k) 1 1 ctx64 emptyTable64 2).map
      (fun r => (r.1, r.2.1, readHash r.2.2.mem r.2.1 2,
        load (store r.2.2.mem r.1 8 200) r.1 8,
        SimNode_TableFind.compute th88 (fun k => k) (store r.2.2.mem r.1 8 200) r.2.1 2))
      = some (4096 + 2 * 8, emptyTable64, HASH_EMPTY, 200, 0) := by
  decide

/-- C2 (grow preservation), evaluated on a capacity 64 table whose one live entry
(hash 128, key 128, value 70) is found in slot 0 before the grow: `grow` returns
`true`, the table has capacity 128, key and value were copied to slot 0 of the new
buffer, but the hash slot was left `HASH_EMPTY` and `find` returns `-1`. -/
theorem grow_loses_live_entry :
    find th88 oneEntryMem oneEntryTable 128 128 = 0 ∧
    load oneEntryMem (valuePtr th88 oneEntryTable 0) 8 = 70 ∧
    (grow th88 1 ⟨oneEntryMem, 0, okHeap, []⟩ oneEntryTable).map
      (fun r => (r.1, r.2.1.capacity, find th88 r.2.2.mem r.2.1 128 128,
        readHash r.2.2.mem r.2.1 0, readKey th88 r.2.2.mem r.2.1 0,
        load r.2.2.mem (valuePtr th88 r.2.1 0) 8))
      = some (true, 128, -1, HASH_EMPTY, 128, 70) := by
  refine ⟨by decide, by decide, by decide!⟩

/-- C3 (capacity after a successful `grow`), evaluated on a zero-initialised table
with a heap that satisfies the request: `grow` returns `true` and the table is still
the zero-initialised one, capacity 0 and `maxLookups` 0, because `swap ( newTab, tab )`
sits inside `if ( tab.size )`. -/
theorem grow_zero_table_keeps_capacity_zero (th : TableHash) (fuel : Nat) (mem : Memory)
    (calls : Nat) (errs : List String) :
    (grow th (fuel + 1) ⟨mem, calls, okHeap, errs⟩ Table.zero).map
      (fun r => (r.1, r.2.1, builtin_table_capacity r.2.1, r.2.1.maxLookups))
      = some (true, Table.zero, 0, 0) := by
  obtain ⟨m, hm⟩ := grow_size_zero th fuel ⟨mem, calls, okHeap, errs⟩ Table.zero rfl
    (by simp [okHeap])
  rw [hm]
  rfl

/-- C4 (insertion terminates), evaluated on a zero-initialised table with a heap that
satisfies every request: whatever fuel is given, `reserve` does not return. Every
round finds the probe window (`maxLookups = 0`) exhausted and calls `grow`, which
returns `true` without changing the table. -/
theorem reserve_zero_table_never_returns (th : TableHash) (growFuel fuel : Nat) (mem : Memory)
    (calls : Nat) (errs : List String) (key hash : Nat) :
    reserve th growFuel fuel ⟨mem, calls, okHeap, errs⟩ Table.zero key hash = none :=
  reserve_zero_none th growFuel fuel _ key hash (by simp [okHeap])

/-- When `insertOrGet(k)` returns a slot (the `reserve` inside it returns an index
other than `-1`), a second `insertOrGet(k)` on the resulting table returns the same
pointer, and changes neither the table nor the context. -/
theorem insertOrGet_twice_same_pointer (th : TableHash) (hfn : Nat → Nat) (growFuel fuel : Nat)
    (ctx : Context) (tab : Table) (key : Nat) (index : Int) (tab1 : Table) (ctx1 : Context)
    (h : reserve th growFuel fuel ctx tab key (hfn key) = some (index, tab1, ctx1))
    (hi : index ≠ -1) (growFuel2 fuel2 : Nat) :
    SimNode_TableIndex.compute th hfn growFuel fuel ctx tab key
      = some (valuePtr th tab1 index, tab1, ctx1) ∧
    SimNode_TableIndex.compute th hfn growFuel2 (fuel2 + 1) ctx1 tab1 key
      = some (valuePtr th tab1 index, tab1, ctx1) := by
  constructor
  · simp only [SimNode_TableIndex.compute, h]
  · have hp := reserve_returns_probe th growFuel fuel ctx tab key (hfn key) index tab1 ctx1 h hi
    simp only [SimNode_TableIndex.compute, reserve_of_probe th growFuel2 fuel2 ctx1 tab1 key
      (hfn key) index hp]

/-- Key 2 on the cleared capacity 64 table: both calls of `insertOrGet(2)` return the
pointer to value slot 2. -/
theorem insertOrGet_twice_same_pointer_witness :
    reserve th88 1 1 ctx64 emptyTable64 2 2 = some (2, emptyTable64, ctx64) ∧
    (2 : Int) ≠ -1 ∧
    SimNode_TableIndex.compute th88 (fun k => k) 1 1 ctx64 emptyTable64 2
      = some (valuePtr th88 emptyTable64 2, emptyTable64, ctx64) ∧
    SimNode_TableIndex.compute th88 (fun k => k) 3 (4 + 1) ctx64 emptyTable64 2
      = some (valuePtr th88 emptyTable64 2, emptyTable64, ctx64) :=
  ⟨by rfl, by decide,
    insertOrGet_twice_same_pointer th88 (fun k => k) 1 1 ctx64 emptyTable64 2 2 emptyTable64
      ctx64 (by rfl) (by decide) 3 4⟩

/-- C5 (idempotent insert: two consecutive `insertOrGet(k)` return the same pointer, for
every table), evaluated on a zero-initialised table with a heap that satisfies every
request: whatever fuel is given, the first `insertOrGet(k)` does not return, so no
pointer is returned at all. The `reserve` inside it finds the probe window
(`maxLookups = 0`) exhausted, `grow` returns `true` without swapping the new buffer in,
and the `for ( ;; )` loop repeats. -/
theorem insertOrGet_zero_table_never_returns (th : TableHash) (hfn : Nat → Nat)
    (growFuel fuel : Nat) (mem : Memory) (calls : Nat) (errs : List String) (key : Nat) :
    SimNode_TableIndex.compute th hfn growFuel fuel ⟨mem, calls, okHeap, errs⟩ Table.zero key
      = none := by
  rw [SimNode_TableIndex.compute,
    reserve_zero_none th growFuel fuel _ key (hfn key) (by simp [okHeap])]

/-- C6 (erase twice gives `true` then `false`, `find` after the first erase gives
null), evaluated on `collisionTable` for key 63, which is live in slot 0: the first
erase returns `true` but kills slot 63 (the entry of key 4159), `find(63)` then still
returns a pointer (to value slot 0), and the second erase returns `true` again. The
loops compare `pKeys[i]` (the loop counter) and not `pKeys[index]`. -/
theorem erase_twice_returns_true_twice :
    readHash collisionMem collisionTable 0 = 63 ∧
    readKey th88 collisionMem collisionTable 0 = 63 ∧
    find th88 collisionMem collisionTable 63 (hashMod4096 63) = 63 ∧
    (erase th88 collisionMem collisionTable 63 (hashMod4096 63)).1 = 63 ∧
    (SimNode_TableErase.tabEval th88 hashMod4096 collisionMem collisionTable 63).1 = true ∧
    SimNode_TableFind.compute th88 hashMod4096
      (SimNode_TableErase.tabEval th88 hashMod4096 collisionMem collisionTable 63).2
      collisionTable 63 = 4096 ∧
    (SimNode_TableErase.tabEval th88 hashMod4096
      (SimNode_TableErase.tabEval th88 hashMod4096 collisionMem collisionTable 63).2
      collisionTable 63).1 = true := by
  decide

/-- C7 (`erase` returns true exactly when the key is present): `erase` returns the
index that `find` returns on the same table, key and hash, so one is `-1` exactly when
the other is, and `SimNode_TableErase::tabEval` yields `true` exactly when `find`
returns a slot. -/
theorem erase_index_eq_find (th : TableHash) (hfn : Nat → Nat) (m : Memory) (tab : Table)
    (key hash : Nat) :
    ((erase th m tab key hash).1 ≠ -1 ↔ find th m tab key hash ≠ -1) ∧
    (erase th m tab key hash).1 = find th m tab key hash ∧
    ((SimNode_TableErase.tabEval th hfn m tab key).1 = true
      ↔ find th m tab key (hfn key) ≠ -1) := by
  have h : ∀ hash, (erase th m tab key hash).1 = find th m tab key hash :=
    fun hash => eraseLoop_fst th m tab key hash _ _ _
  refine ⟨by rw [h], h hash, ?_⟩
  simp [SimNode_TableErase.tabEval, h]

/-- C8 (locked tables are never grown), evaluated on `lockedTable` (`lock = 1`) for a
key whose probe window is full: `reserve` returns slot 64 of a new buffer, the table
now has capacity 128 and other pointers, and no error was reported. -/
theorem reserve_grows_locked_table :
    reserveLoop th88 lockedMem lockedTable 64 64 lockedTable.maxLookups 0
      (indexForHash lockedTable 64) = none ∧
    (reserve th88 1 2 ⟨lockedMem, 0, okHeap, []⟩ lockedTable 64 64).map
      (fun r => (r.1, r.2.1, r.2.2.errors))
      = some (64, ⟨65536, 65536 + 128 * 8, 65536 + 128 * 8 + 128, 0, 0, 128, 1, 7⟩, []) := by
  refine ⟨by decide, by decide!⟩

/-- C9 (grow is atomic on failure): when the heap answers the request of `grow` with
null, `grow` returns `false`, the only change to the context is the recorded
out-of-heap error (and the counted heap call), table and memory are as before; and
`reserve` returns the slot its probe finds or, when the probe window is exhausted,
`-1` with the table unchanged. -/
theorem grow_out_of_heap_is_atomic (th : TableHash) (growFuel fuel : Nat) (ctx : Context)
    (tab : Table) (key hash : Nat)
    (hnull : ctx.heapAnswer ctx.heapCalls
      (max minCapacity (tab.capacity * 2 % 2 ^ 32) * (th.valueTypeSize + th.keySize + 8) % 2 ^ 32)
        = 0) :
    grow th (growFuel + 1) ctx tab
      = some (false, tab,
          ⟨ctx.mem, ctx.heapCalls + 1, ctx.heapAnswer, ctx.errors ++ [outOfHeapMessage]⟩) ∧
    reserve th (growFuel + 1) (fuel + 1) ctx tab key hash
      = (match reserveLoop th ctx.mem tab key hash tab.maxLookups 0 (indexForHash tab hash) with
        | some index => some (index, tab, ctx)
        | none => some (-1, tab,
            ⟨ctx.mem, ctx.heapCalls + 1, ctx.heapAnswer, ctx.errors ++ [outOfHeapMessage]⟩)) := by
  have hg := grow_null th growFuel ctx tab hnull
  refine ⟨hg, ?_⟩
  rw [reserve]
  split
  · rfl
  · rw [hg]

/-- Witness for C9: `lockedTable`, whose probe window for hash 64 is full, with a heap
that refuses every request. -/
theorem grow_out_of_heap_is_atomic_witness :
    nullHeap 0 (max minCapacity (lockedTable.capacity * 2 % 2 ^ 32) * (8 + 8 + 8) % 2 ^ 32) = 0 ∧
    grow th88 1 ⟨lockedMem, 0, nullHeap, []⟩ lockedTable
      = some (false, lockedTable, ⟨lockedMem, 1, nullHeap, [outOfHeapMessage]⟩) ∧
    reserve th88 1 1 ⟨lockedMem, 0, nullHeap, []⟩ lockedTable 64 64
      = some (-1, lockedTable, ⟨lockedMem, 1, nullHeap, [outOfHeapMessage]⟩) := by
  have h := grow_out_of_heap_is_atomic th88 0 0 ⟨lockedMem, 0, nullHeap, []⟩ lockedTable 64 64 rfl
  have hp : reserveLoop th88 lockedMem lockedTable 64 64 lockedTable.maxLookups 0
      (indexForHash lockedTable 64) = none := by decide
  refine ⟨rfl, h.1, ?_⟩
  have h2 := h.2
  simp only [hp] at h2
  exact h2

/-- C10 (`size` counts the live slots after insertion; three inserts give size 3),
evaluated on scenario S1 over the cleared capacity 64 table: after inserting
(1, 100), (2, 200), (3, 300) the three values are in their slots, but
`builtin_table_size` reports 0 and no hash slot is live. -/
theorem size_after_three_inserts_is_zero :
    (((insertAndWrite th88 (fun k => k) 1 1 (emptyTable64, ctx64) 1 100).bind
      (fun s => insertAndWrite th88 (fun k => k) 1 1 s 2 200)).bind
      (fun s => insertAndWrite th88 (fun k => k) 1 1 s 3 300)).map
      (fun s => (builtin_table_size s.1, liveCount s.2.mem s.1 64,
        load s.2.mem (valuePtr th88 s.1 1) 8, load s.2.mem (valuePtr th88 s.1 2) 8,
        load s.2.mem (valuePtr th88 s.1 3) 8))
      = some (0, 0, 100, 200, 300) := by
  decide!

end das

namespace das

/-! ## Lemmas for the second group of claims -/

theorem sum_sizes_erase (l : List (Nat × Nat)) (b : Nat × Nat) (h : b ∈ l) :
    b.2 + ((l.erase b).map Prod.snd).sum = (l.map Prod.snd).sum := by
  induction l with
  | nil => simp at h
  | cons a l ih =>
    rw [List.erase_cons]
    by_cases hab : a = b
    · subst hab
      simp
    · have hne : (a == b) = false := by simpa using hab
      rw [hne]
      have hb : b ∈ l := by
        rcases List.mem_cons.1 h with rfl | hb
        · exact absurd rfl hab
        · exact hb
      have := ih hb
      simp only [Bool.false_eq_true, ↓reduceIte, List.map_cons, List.sum_cons]
      omega

theorem PageOp.apply_sound (pageSize : Nat) (hps : pageSize < 2 ^ 32) (s : PageRun)
    (op : PageOp) (hs : s.sound pageSize) (hl : op.legal s = true) (hw : op.noWrap s = true) :
    (op.apply pageSize s).sound pageSize := by
  obtain ⟨⟨h1, h2, h3⟩, h4, h5⟩ := hs
  cases op with
  | allocate size =>
    simp only [PageOp.noWrap, decide_eq_true_eq] at hw
    simp only [PageOp.apply, Page.allocate, add32, sub32, NOT_ALLOCATED]
    have e1 : (s.page.offset + size) % 2 ^ 32 = s.page.offset + size := Nat.mod_eq_of_lt hw
    have e2 : (s.page.total + size) % 2 ^ 32 = s.page.total + size :=
      Nat.mod_eq_of_lt (by omega)
    have e3 : (s.page.offset + size + 2 ^ 32 - size % 2 ^ 32) % 2 ^ 32 = s.page.offset := by
      omega
    rw [e1, e2]
    by_cases hfit : s.page.offset + size > pageSize
    · simp only [hfit, ↓reduceIte, ne_eq, not_true_eq_false]
      exact ⟨⟨h1, h2, h3⟩, h4, h5⟩
    · simp only [hfit, ↓reduceIte, e3]
      split_ifs with hna
      · refine ⟨⟨by simp only; omega, by simp only; omega, ?_⟩, ?_, ?_⟩
        · simp only; intro h0; have := h3 (by omega); omega
        · intro b hb
          rcases List.mem_cons.1 hb with rfl | hb
          · simp only; omega
          · exact h4 b hb
        · simp only [List.map_cons, List.sum_cons]; omega
      · refine ⟨⟨by simp only; omega, by simp only; omega, ?_⟩, h4, ?_⟩
        · simp only; intro h0; have := h3 (by omega); omega
        · simp only
          have : s.page.offset = 2 ^ 32 - 1 := by
            simpa using hna
          omega
  | free loc size =>
    simp only [PageOp.legal, decide_eq_true_eq] at hl
    have hb := h4 _ hl
    simp only at hb
    have hsum := sum_sizes_erase s.live (loc, size) hl
    simp only at hsum
    simp only [PageOp.apply, Page.free, add32, sub32]
    have e1 : (loc + size) % 2 ^ 32 = loc + size := Nat.mod_eq_of_lt (by omega)
    have e2 : (s.page.total + 2 ^ 32 - size % 2 ^ 32) % 2 ^ 32 = s.page.total - size := by omega
    rw [e1, e2]
    refine ⟨?_, fun b hb' => h4 b (List.mem_of_mem_erase hb'), ?_⟩
    · unfold Page.invariant
      by_cases h0 : s.page.total - size = 0
      · rw [if_pos h0]
        exact ⟨by dsimp only; omega, Nat.zero_le _, fun _ => rfl⟩
      · rw [if_neg h0]
        by_cases htop : loc + size = s.page.offset
        · have e3 : (s.page.offset + 2 ^ 32 - size % 2 ^ 32) % 2 ^ 32 = loc := by omega
          rw [if_pos htop, e3]
          exact ⟨by dsimp only; omega, by dsimp only; omega, fun h => absurd h h0⟩
        · rw [if_neg htop]
          exact ⟨by dsimp only; omega, by dsimp only; omega, fun h => absurd h h0⟩
    · by_cases h0 : s.page.total - size = 0
      · rw [if_pos h0]; dsimp only; omega
      · rw [if_neg h0]; dsimp only; omega
  | reallocate loc size nsize =>
    simp only [PageOp.legal, decide_eq_true_eq] at hl
    simp only [PageOp.noWrap, decide_eq_true_eq] at hw
    have hb := h4 _ hl
    simp only at hb
    have hsum := sum_sizes_erase s.live (loc, size) hl
    simp only at hsum
    simp only [PageOp.apply, Page.reallocate, add32, sub32]
    have e1 : (loc + size) % 2 ^ 32 = loc + size := Nat.mod_eq_of_lt (by omega)
    have e2 : (loc + nsize) % 2 ^ 32 = loc + nsize := Nat.mod_eq_of_lt hw
    rw [e1, e2]
    by_cases htop : loc + size = s.page.offset
    · by_cases hfit : loc + nsize > pageSize
      · simp only [htop, hfit, ne_eq, not_true_eq_false, ↓reduceIte, Bool.false_eq_true]
        exact ⟨⟨h1, h2, h3⟩, h4, h5⟩
      · have e4 : ((s.page.offset + 2 ^ 32 - size % 2 ^ 32) % 2 ^ 32 + nsize) % 2 ^ 32
            = loc + nsize := by omega
        have e5 : ((s.page.total + 2 ^ 32 - size % 2 ^ 32) % 2 ^ 32 + nsize) % 2 ^ 32
            = s.page.total - size + nsize := by omega
        simp only [htop, hfit, ne_eq, not_true_eq_false, ↓reduceIte, e4, e5]
        refine ⟨?_, ?_, ?_⟩
        · unfold Page.invariant
          split_ifs with h0
          · exact ⟨by simp only; omega, Nat.zero_le _, fun _ => rfl⟩
          · exact ⟨by simp only; omega, by simp only; omega, fun h => absurd h h0⟩
        · intro b hb'
          rcases List.mem_cons.1 hb' with rfl | hb'
          · simp only; omega
          · exact h4 b (List.mem_of_mem_erase hb')
        · simp only [List.map_cons, List.sum_cons]
          split_ifs <;> simp only <;> omega
    · simp only [htop, ne_eq, not_false_eq_true, ↓reduceIte, Bool.false_eq_true]
      exact ⟨⟨h1, h2, h3⟩, h4, h5⟩

theorem PageRun.run_sound (pageSize : Nat) (hps : pageSize < 2 ^ 32) (ops : List PageOp)
    (s : PageRun) (hs : s.sound pageSize) (hl : PageRun.legalOps pageSize s ops = true)
    (hw : PageRun.noWrapOps pageSize s ops = true) :
    (PageRun.run pageSize s ops).sound pageSize := by
  induction ops generalizing s with
  | nil => exact hs
  | cons op ops ih =>
    simp only [PageRun.legalOps, Bool.and_eq_true] at hl
    simp only [PageRun.noWrapOps, Bool.and_eq_true] at hw
    exact ih _ (PageOp.apply_sound pageSize hps s op hs hl.1 hw.1) hl.2 hw.2

/-! ## Lemmas about `Book` -/

theorem Book.page_offset_le (b : Book) (hwf : b.wellFormed) (i : Nat) :
    (b.page i).offset ≤ b.pageSize := by
  unfold Book.page
  by_cases hi : i < b.pages.length
  · rw [List.getD_eq_getElem _ _ hi]
    exact hwf.2.1 _ (List.getElem_mem hi)
  · rw [List.getD_eq_default _ _ (by omega)]
    exact Nat.zero_le _

theorem set_getD_self (l : List Page) (i : Nat) (d : Page) : l.set i (l.getD i d) = l := by
  induction l generalizing i with
  | nil => rfl
  | cons a l ih =>
    cases i with
    | zero => rfl
    | succ i =>
      rw [List.set_cons_succ, List.getD_cons_succ, ih]

theorem Book.set_page_self (b : Book) (i : Nat) : b.pages.set i (b.page i) = b.pages :=
  set_getD_self b.pages i _

/-- A page that refuses a block is left as it was. Without 32-bit wrap-around
`Page::allocate` returns `NOT_ALLOCATED` only when it refuses. -/
theorem Page.allocate_refused (p : Page) (size pageSize : Nat) (hoff : p.offset ≤ pageSize)
    (hps : pageSize < 2 ^ 31)
    (hr : ¬ (p.allocate size pageSize).1 ≠ NOT_ALLOCATED) :
    (p.allocate size pageSize).2 = p := by
  unfold Page.allocate at hr ⊢
  split_ifs at hr ⊢ with h
  · rfl
  · exfalso
    apply hr
    simp only [add32, sub32, NOT_ALLOCATED]
    omega

theorem Book.set_refused (b : Book) (size : Nat) (hoff : ∀ p ∈ b.pages, p.offset ≤ b.pageSize)
    (hps : b.pageSize < 2 ^ 31)
    (hr : ¬ ((b.page b.freePageIndex).allocate size b.pageSize).1 ≠ NOT_ALLOCATED) :
    b.pages.set b.freePageIndex ((b.page b.freePageIndex).allocate size b.pageSize).2
      = b.pages := by
  have hpo : (b.page b.freePageIndex).offset ≤ b.pageSize := by
    unfold Book.page
    by_cases hi : b.freePageIndex < b.pages.length
    · rw [List.getD_eq_getElem _ _ hi]
      exact hoff _ (List.getElem_mem hi)
    · rw [List.getD_eq_default _ _ (by omega)]
      exact Nat.zero_le _
  rw [Page.allocate_refused _ size b.pageSize hpo hps hr]
  exact Book.set_page_self b _

theorem Book.allocateLoop_owned (size : Nat) (hs : 0 < size) (n : Nat) (b : Book)
    (hwf : b.wellFormed) (hsz : size ≤ b.pageSize)
    (h : (Book.allocateLoop size n b).1 ≠ 0) :
    b.isOwnPtr (Book.allocateLoop size n b).1 = true := by
  induction n generalizing b with
  | zero => exact absurd rfl h
  | succ n ih =>
    rw [Book.allocateLoop] at h ⊢
    obtain ⟨hlen, hoff, hfpi, htot, htot32, hps⟩ := hwf
    split_ifs at h ⊢ with hr hge
    · -- the page at the rotation cursor accepted the block
      have hpo := Book.page_offset_le b ⟨hlen, hoff, hfpi, htot, htot32, hps⟩ b.freePageIndex
      simp only [Page.allocate, add32, sub32, NOT_ALLOCATED] at hr ⊢
      have e1 : ((b.page b.freePageIndex).offset + size) % 2 ^ 32
          = (b.page b.freePageIndex).offset + size := Nat.mod_eq_of_lt (by omega)
      rw [e1] at hr ⊢
      by_cases hfit : (b.page b.freePageIndex).offset + size > b.pageSize
      · simp [hfit] at hr
      · have e2 : ((b.page b.freePageIndex).offset + size + 2 ^ 32 - size % 2 ^ 32) % 2 ^ 32
            = (b.page b.freePageIndex).offset := by omega
        simp only [hfit, ↓reduceIte, e2]
        have hmul : (b.freePageIndex + 1) * b.pageSize ≤ b.totalPages * b.pageSize :=
          Nat.mul_le_mul_right _ (by omega)
        rw [Nat.succ_mul] at hmul
        rw [Nat.mul_comm b.pageSize b.totalPages] at htot
        simp only [Book.isOwnPtr, decide_eq_true_eq]
        generalize b.freePageIndex * b.pageSize = x at hmul ⊢
        rw [Nat.mod_eq_of_lt (by omega)]
        omega
    · -- the rotation wraps around to page 0
      rw [Book.set_refused b size hoff hps hr] at h ⊢
      exact ih _ ⟨hlen, hoff, by dsimp only; omega, htot, htot32, hps⟩ hsz h
    · -- the rotation moves on to the next page
      rw [Book.set_refused b size hoff hps hr] at h ⊢
      exact ih _ ⟨hlen, hoff, by dsimp only; simp only [add32] at hge ⊢; omega, htot, htot32, hps⟩
        hsz h

theorem Page.allocate_offset_aligned (p : Page) (size pageSize : Nat) (hp : p.offset % 16 = 0)
    (hs : size % 16 = 0) :
    (p.allocate size pageSize).2.offset % 16 = 0 ∧
      ((p.allocate size pageSize).1 ≠ NOT_ALLOCATED →
        (p.allocate size pageSize).1 % 16 = 0) := by
  simp only [Page.allocate, add32, sub32, NOT_ALLOCATED]
  split_ifs with h
  · exact ⟨hp, fun hne => absurd rfl hne⟩
  · exact ⟨by dsimp only; omega, fun _ => by dsimp only; omega⟩

theorem Page.free_offset_aligned (p : Page) (loc size : Nat) (hp : p.offset % 16 = 0)
    (hs : size % 16 = 0) : (p.free loc size).offset % 16 = 0 := by
  simp only [Page.free, add32, sub32]
  split_ifs <;> dsimp only <;> omega

theorem Page.reallocate_offset_aligned (p : Page) (loc size nsize pageSize : Nat)
    (hp : p.offset % 16 = 0) (hs : size % 16 = 0) (hn : nsize % 16 = 0) :
    (p.reallocate loc size nsize pageSize).2.offset % 16 = 0 := by
  simp only [Page.reallocate, add32, sub32]
  split_ifs <;> dsimp only <;> omega

theorem Book.page_aligned (b : Book) (hb : b.aligned) (i : Nat) : (b.page i).offset % 16 = 0 := by
  unfold Book.page
  by_cases hi : i < b.pages.length
  · rw [List.getD_eq_getElem _ _ hi]
    exact hb.2 _ (List.getElem_mem hi)
  · rw [List.getD_eq_default _ _ (by omega)]
    rfl

theorem Book.set_aligned (b : Book) (hb : b.aligned) (i : Nat) (q : Page) (hq : q.offset % 16 = 0)
    (tf fpi : Nat) :
    ({ b with pages := b.pages.set i q, totalFree := tf, freePageIndex := fpi } : Book).aligned := by
  refine ⟨hb.1, fun p hp => ?_⟩
  rcases List.mem_or_eq_of_mem_set hp with h | h
  · exact hb.2 p h
  · rw [h]; exact hq

theorem Book.allocateLoop_aligned (size : Nat) (hs : size % 16 = 0) (n : Nat) (b : Book)
    (hb : b.aligned) :
    (Book.allocateLoop size n b).2.aligned ∧ (Book.allocateLoop size n b).2.data = b.data ∧
      ((Book.allocateLoop size n b).1 = 0 ∨
        (b.data ≤ (Book.allocateLoop size n b).1 ∧
          ((Book.allocateLoop size n b).1 - b.data) % 16 = 0)) := by
  induction n generalizing b with
  | zero => exact ⟨hb, rfl, Or.inl rfl⟩
  | succ n ih =>
    rw [Book.allocateLoop]
    have hpa := Page.allocate_offset_aligned (b.page b.freePageIndex) size b.pageSize
      (Book.page_aligned b hb _) hs
    split_ifs with hr hge
    · refine ⟨Book.set_aligned b hb _ _ hpa.1 _ _, rfl, Or.inr ⟨by dsimp only; omega, ?_⟩⟩
      have h1 := hpa.2 hr
      have h2 : b.freePageIndex * b.pageSize % 2 ^ 32 % 16 = 0 := by
        rw [Nat.mod_mod_of_dvd _ (by norm_num : 16 ∣ 2 ^ 32)]
        exact Nat.mod_eq_zero_of_dvd (Dvd.dvd.mul_left (Nat.dvd_of_mod_eq_zero hb.1) _)
      dsimp only
      omega
    · exact ih _ (Book.set_aligned b hb _ _ hpa.1 b.totalFree _)
    · exact ih _ (Book.set_aligned b hb _ _ hpa.1 b.totalFree _)

theorem Book.allocate_aligned (b : Book) (size : Nat) (hb : b.aligned) (hs : size % 16 = 0) :
    (b.allocate size).2.aligned ∧ (b.allocate size).2.data = b.data ∧
      ((b.allocate size).1 = 0 ∨
        (b.data ≤ (b.allocate size).1 ∧ ((b.allocate size).1 - b.data) % 16 = 0)) := by
  unfold Book.allocate
  split_ifs
  · exact ⟨hb, rfl, Or.inl rfl⟩
  · exact ⟨hb, rfl, Or.inl rfl⟩
  · exact Book.allocateLoop_aligned size hs _ b hb

theorem Book.free_aligned (b : Book) (ptr size : Nat) (hb : b.aligned) (hs : size % 16 = 0) :
    (b.free ptr size).aligned ∧ (b.free ptr size).data = b.data := by
  refine ⟨?_, rfl⟩
  have := Book.set_aligned b hb (b.gofs ptr / b.pageSize)
    ((b.page (b.gofs ptr / b.pageSize)).free (b.gofs ptr % b.pageSize) size)
    (Page.free_offset_aligned _ _ _ (Book.page_aligned b hb _) hs) (add32 b.totalFree size)
    b.freePageIndex
  exact this

theorem Book.reallocate_aligned (b : Book) (ptr size nsize : Nat) (hb : b.aligned)
    (hs : size % 16 = 0) (hn : nsize % 16 = 0) :
    (b.reallocate ptr size nsize).2.aligned ∧ (b.reallocate ptr size nsize).2.data = b.data ∧
      (ptr = 0 → ((b.reallocate ptr size nsize).1 = 0 ∨
        (b.data ≤ (b.reallocate ptr size nsize).1 ∧
          ((b.reallocate ptr size nsize).1 - b.data) % 16 = 0))) := by
  unfold Book.reallocate
  by_cases h0 : ptr = 0
  · rw [if_pos h0]
    have := Book.allocate_aligned b size hb hs
    exact ⟨this.1, this.2.1, fun _ => this.2.2⟩
  · rw [if_neg h0]
    by_cases h1 : size = nsize
    · rw [if_pos h1]
      exact ⟨hb, rfl, fun h => absurd h h0⟩
    · rw [if_neg h1]
      dsimp only
      split_ifs with h2
      · refine ⟨?_, rfl, fun h => absurd h h0⟩
        exact Book.set_aligned b hb _ _
          (Page.reallocate_offset_aligned _ _ _ _ _ (Book.page_aligned b hb _) hs hn) _ b.freePageIndex
      · exact ⟨hb, rfl, fun h => absurd h h0⟩

theorem Book.allocated_aligned (ops : List BookOp) (b : Book) (hb : b.aligned)
    (h16 : ∀ op ∈ ops, op.sizes16 = true) :
    ∀ ptr ∈ Book.allocated b ops, b.data ≤ ptr ∧ (ptr - b.data) % 16 = 0 := by
  induction ops generalizing b with
  | nil => intro ptr hp; simp [Book.allocated] at hp
  | cons op ops ih =>
    have hop := h16 op (List.mem_cons_self _ _)
    have hops : ∀ o ∈ ops, o.sizes16 = true := fun o ho => h16 o (List.mem_cons_of_mem _ ho)
    have key : (op.apply b).2.aligned ∧ (op.apply b).2.data = b.data ∧
        ∀ ptr, (op.apply b).1 = some ptr → ptr ≠ 0 → b.data ≤ ptr ∧ (ptr - b.data) % 16 = 0 := by
      cases op with
      | allocate size =>
        simp only [BookOp.sizes16, decide_eq_true_eq] at hop
        have := Book.allocate_aligned b size hb hop
        refine ⟨this.1, this.2.1, fun ptr hp hne => ?_⟩
        simp only [BookOp.apply, Option.some.injEq] at hp
        rcases this.2.2 with h | h
        · exact absurd (hp ▸ h) hne
        · exact hp ▸ h
      | free ptr size =>
        simp only [BookOp.sizes16, decide_eq_true_eq] at hop
        have := Book.free_aligned b ptr size hb hop
        exact ⟨this.1, this.2, fun p hp => by simp [BookOp.apply] at hp⟩
      | reallocate ptr size nsize =>
        simp only [BookOp.sizes16, decide_eq_true_eq] at hop
        have := Book.reallocate_aligned b ptr size nsize hb hop.1 hop.2
        refine ⟨this.1, this.2.1, fun p hp hne => ?_⟩
        simp only [BookOp.apply] at hp
        split_ifs at hp with h0
        · simp only [Option.some.injEq] at hp
          rcases this.2.2 h0 with h | h
          · exact absurd (hp ▸ h) hne
          · exact hp ▸ h
    obtain ⟨ha, hd, hp⟩ := key
    have ih2 := ih (op.apply b).2 ha hops
    rw [hd] at ih2
    intro ptr hmem
    rw [Book.allocated] at hmem
    split at hmem
    · next q hq =>
      split_ifs at hmem with hne
      · rcases List.mem_cons.1 hmem with rfl | hmem
        · exact hp _ hq hne
        · exact ih2 _ hmem
      · exact ih2 _ hmem
    · exact ih2 _ hmem

theorem Book.allocateLoop_frame (size n : Nat) (b : Book) :
    (Book.allocateLoop size n b).2.data = b.data ∧
      (Book.allocateLoop size n b).2.totalSize = b.totalSize := by
  induction n generalizing b with
  | zero => exact ⟨rfl, rfl⟩
  | succ n ih =>
    rw [Book.allocateLoop]
    split_ifs
    · exact ⟨rfl, rfl⟩
    · exact ih _
    · exact ih _

theorem Book.allocate_frame (b : Book) (size : Nat) :
    (b.allocate size).2.data = b.data ∧ (b.allocate size).2.totalSize = b.totalSize := by
  unfold Book.allocate
  split_ifs
  · exact ⟨rfl, rfl⟩
  · exact ⟨rfl, rfl⟩
  · exact Book.allocateLoop_frame size _ b

end das

namespace das

/-! ## The claims, second group -/

/-- C11 (`insertOrGet` of an absent key returns a zeroed value slot, also on a
tombstone), evaluated on `oneEntryTable`: key 128 (value 70) is erased from slot 0,
which becomes `HASH_KILLED`, and `find` no longer returns it; `insertOrGet(128)` then
returns the pointer to value slot 0, whose 8 bytes still hold 70. Neither `erase`
nor `reserve` clears the value. -/
theorem insertOrGet_on_tombstone_returns_stale_value :
    (erase th88 oneEntryMem oneEntryTable 128 128).1 = 0 ∧
    readHash (erase th88 oneEntryMem oneEntryTable 128 128).2 oneEntryTable 0 = HASH_KILLED ∧
    find th88 (erase th88 oneEntryMem oneEntryTable 128 128).2 oneEntryTable 128 128 = -1 ∧
    (SimNode_TableIndex.compute th88 (fun k => k) 1 1
        ⟨(erase th88 oneEntryMem oneEntryTable 128 128).2, 0, okHeap, []⟩ oneEntryTable 128).map
      (fun r => (r.1, load r.2.2.mem r.1 8)) = some (4096, 70) := by
  decide

/-- C14 (zero-initialised table): whatever the memory holds, `find` and `erase` on a
zero-initialised table return `-1` for every key and hash and `erase` leaves the
memory as it is (the loops run `maxLookups = 0` times, so no slot is read);
`SimNode_TableFind::compute` yields `nullptr` and `SimNode_TableErase::tabEval`
yields `false`. -/
theorem zero_table_find_erase (th : TableHash) (hfn : Nat → Nat) (m : Memory) (key hash : Nat) :
    find th m Table.zero key hash = -1 ∧
    erase th m Table.zero key hash = (-1, m) ∧
    SimNode_TableFind.compute th hfn m Table.zero key = 0 ∧
    SimNode_TableErase.tabEval th hfn m Table.zero key = (false, m) :=
  ⟨rfl, rfl, rfl, rfl⟩

/-- C15 (`builtin_table_free` gives the heap back the size `grow` requested),
evaluated on the table `grow` makes from `oneEntryTable` (8 byte keys and values):
the heap grants only a request of exactly `128 * (8 + 8 + 8) = 3072` bytes and `grow`
succeeds with capacity 128, so 3072 bytes were requested; `builtin_table_free` of
that table then calls `heap.free` with `128 * (8 + 8 + 4) = 2560` bytes. -/
theorem table_free_size_differs_from_grow_request :
    (grow th88 1 ⟨oneEntryMem, 0, exactHeap 3072, []⟩ oneEntryTable).map
      (fun r => (r.1, r.2.1.data, r.2.1.capacity, (builtin_table_free r.2.1 8 8 r.2.2).2.2))
      = some (true, 65536, 128, some (65536, 2560)) := by
  decide!

/-- C16 (`builtin_table_free` on a locked table): with a buffer and `lock ≠ 0` the
error "can't delete locked table" is recorded and `heap.free` is not called; with a
buffer and `lock = 0` the buffer is handed to `heap.free` and no error is recorded;
in every case a call of `heap.free` implies `lock = 0`. -/
theorem table_free_locked (tab : Table) (szk szv : Int) (ctx : Context) (hdata : tab.data ≠ 0) :
    (tab.lock ≠ 0 →
      builtin_table_free tab szk szv ctx
        = (Table.zero, ⟨ctx.mem, ctx.heapCalls, ctx.heapAnswer,
            ctx.errors ++ [lockedTableMessage]⟩, none)) ∧
    (tab.lock = 0 →
      (builtin_table_free tab szk szv ctx).2.1 = ctx ∧
      ∃ size, (builtin_table_free tab szk szv ctx).2.2 = some (tab.data, size)) ∧
    ((builtin_table_free tab szk szv ctx).2.2 ≠ none → tab.lock = 0) := by
  refine ⟨fun hl => ?_, fun hl => ?_, fun hf => ?_⟩
  · simp [builtin_table_free, hdata, hl, Context.throw_error]
  · simp [builtin_table_free, hdata, hl]
  · by_contra hl
    simp [builtin_table_free, hdata, hl] at hf

/-- Witness for C16: `lockedTable` has a buffer and `lock = 1`. -/
theorem table_free_locked_witness :
    lockedTable.data ≠ 0 ∧
    builtin_table_free lockedTable 8 8 ⟨lockedMem, 0, okHeap, []⟩
      = (Table.zero, ⟨lockedMem, 0, okHeap, [lockedTableMessage]⟩, none) :=
  ⟨by decide,
    (table_free_locked lockedTable 8 8 ⟨lockedMem, 0, okHeap, []⟩ (by decide)).1 (by decide)⟩

/-- C17, as stated (every legal sequence keeps the page invariant), fails: on a page
of 4096 bytes the calls `allocate(16)`, `allocate(16)`, `free(0, 16)`,
`allocate(2^32 - 32)` are legal, the last `offset + size` wraps around to 0, the
block is handed out, and the page ends with `offset = 0` and `total = 2^32 - 16`. -/
theorem page_invariant_broken_by_wrap :
    PageRun.legalOps 4096 PageRun.fresh
      [.allocate 16, .allocate 16, .free 0 16, .allocate (2 ^ 32 - 32)] = true ∧
    (PageRun.run 4096 PageRun.fresh
      [.allocate 16, .allocate 16, .free 0 16, .allocate (2 ^ 32 - 32)]).page
        = ⟨0, 2 ^ 32 - 16⟩ ∧
    ¬ Page.invariant (PageRun.run 4096 PageRun.fresh
      [.allocate 16, .allocate 16, .free 0 16, .allocate (2 ^ 32 - 32)]).page 4096 := by
  refine ⟨by decide, by decide, ?_⟩
  unfold Page.invariant
  decide

/-- C17, amended (page invariant): starting from a fresh page, after every legal
sequence of `allocate`, `free` and `reallocate` calls in which no `offset + size`
(allocate) and no `loc + nsize` (reallocate) reaches `2^32`, the page satisfies
`total ≤ offset ≤ pageSize`, and `total = 0` implies `offset = 0`. -/
theorem page_invariant_without_wrap (pageSize : Nat) (ops : List PageOp)
    (hps : pageSize < 2 ^ 32)
    (hl : PageRun.legalOps pageSize PageRun.fresh ops = true)
    (hw : PageRun.noWrapOps pageSize PageRun.fresh ops = true) :
    Page.invariant (PageRun.run pageSize PageRun.fresh ops).page pageSize :=
  (PageRun.run_sound pageSize hps ops PageRun.fresh
    ⟨⟨le_refl _, Nat.zero_le _, fun _ => rfl⟩, fun _ hb => by simp [PageRun.fresh] at hb, rfl⟩
    hl hw).1

/-- Witness for C17: scenario S4 on a 64 KiB page (allocate A, B, C of 1 KiB, free C,
free B, allocate 2 KiB). -/
theorem page_invariant_without_wrap_witness :
    65536 < 2 ^ 32 ∧
    PageRun.legalOps 65536 PageRun.fresh
      [.allocate 1024, .allocate 1024, .allocate 1024, .free 2048 1024, .free 1024 1024,
        .allocate 2048] = true ∧
    PageRun.noWrapOps 65536 PageRun.fresh
      [.allocate 1024, .allocate 1024, .allocate 1024, .free 2048 1024, .free 1024 1024,
        .allocate 2048] = true ∧
    Page.invariant (PageRun.run 65536 PageRun.fresh
      [.allocate 1024, .allocate 1024, .allocate 1024, .free 2048 1024, .free 1024 1024,
        .allocate 2048]).page 65536 :=
  ⟨by decide, by decide, by decide,
    page_invariant_without_wrap 65536 _ (by decide) (by decide) (by decide)⟩

/-- C18 (live blocks never overlap), evaluated on a fresh book with one page of 4096
bytes at address 65536: `allocate(16)` returns block A at 65536, `allocate(16)`
returns block B at 65552, `reallocate(B, 16, 2^32 - 16)` succeeds in place
(`loc + nsize` wraps around to 0, which is not above `pageSize`) and resets the page
cursor, and the next `allocate(16)` returns 65536 again, the address of the live
block A. -/
theorem book_allocate_returns_live_block_after_reallocate_wrap :
    (Book.construct 4096 1 65536).allocate 16 = (65536, wrapBook1) ∧
    wrapBook1.allocate 16 = (65552, wrapBook2) ∧
    wrapBook2.reallocate 65552 16 (2 ^ 32 - 16) = (65552, wrapBook3) ∧
    wrapBook3.page 0 = ⟨0, 0⟩ ∧
    (wrapBook3.allocate 16).1 = 65536 := by
  decide

/-- C19, as stated (every non-null pointer `Book::allocate` returns is owned, also for
size 0), fails: on a book with one page of 4096 bytes at address 65536 that holds
one block of 4096 bytes, `allocate(0)` returns `data + totalSize`, for which
`isOwnPtr` is false. -/
theorem book_allocate_zero_returns_end_pointer :
    (fullBook.allocate 0).1 = 65536 + 4096 ∧
    fullBook.data + fullBook.totalSize = 65536 + 4096 ∧
    (fullBook.allocate 0).1 ≠ 0 ∧
    fullBook.isOwnPtr (fullBook.allocate 0).1 = false := by
  decide

/-- C19, amended: for every well-formed book state and every requested size greater
than 0, a non-null pointer returned by `Book::allocate` lies in
`[data, data + totalSize)`, that is, `isOwnPtr` is true for it. -/
theorem book_allocate_owned (b : Book) (size : Nat) (hwf : b.wellFormed) (hs : 0 < size)
    (h : (b.allocate size).1 ≠ 0) :
    b.isOwnPtr (b.allocate size).1 = true ∧
    (b.allocate size).2.isOwnPtr (b.allocate size).1 = true := by
  have key : b.isOwnPtr (b.allocate size).1 = true := by
    unfold Book.allocate at h ⊢
    split_ifs at h ⊢ with h1 h2
    · exact absurd rfl h
    · exact absurd rfl h
    · exact Book.allocateLoop_owned size hs _ b hwf (by omega) h
  refine ⟨key, ?_⟩
  have hd := (Book.allocate_frame b size)
  simp only [Book.isOwnPtr, hd.1, hd.2] at key ⊢
  exact key

/-- Witness for C19: 16 bytes from a fresh book with one page of 4096 bytes. -/
theorem book_allocate_owned_witness :
    (Book.construct 4096 1 65536).wellFormed ∧ 0 < 16 ∧
    ((Book.construct 4096 1 65536).allocate 16).1 ≠ 0 ∧
    (Book.construct 4096 1 65536).isOwnPtr ((Book.construct 4096 1 65536).allocate 16).1 = true ∧
    ((Book.construct 4096 1 65536).allocate 16).2.isOwnPtr
      ((Book.construct 4096 1 65536).allocate 16).1 = true :=
  have hwf : (Book.construct 4096 1 65536).wellFormed := by
    unfold Book.wellFormed
    decide
  ⟨hwf, by decide, by decide,
    book_allocate_owned (Book.construct 4096 1 65536) 16 hwf (by decide) (by decide)⟩

/-- C20, as stated (pointers are 16-byte aligned for any requested sizes), fails: on a
fresh book with one page of 4096 bytes (a multiple of 16), two calls `allocate(8)`
return `data` and `data + 8`. -/
theorem book_allocate_unaligned :
    4096 % 16 = 0 ∧
    Book.allocated (Book.construct 4096 1 65536) [.allocate 8, .allocate 8] = [65536, 65544] ∧
    (65544 - (Book.construct 4096 1 65536).data) % 16 ≠ 0 := by
  decide

/-- C20, amended: for every book constructed with a page size that is a multiple of
16 and every sequence of `allocate`, `free` and `reallocate` calls whose sizes are
all multiples of 16, the offset `ptr − data` of every non-null pointer returned by
`Book::allocate` is a multiple of 16. -/
theorem book_allocate_aligned (ps tp data : Nat) (ops : List BookOp) (hps : ps % 16 = 0)
    (h16 : ∀ op ∈ ops, op.sizes16 = true) :
    ∀ ptr ∈ Book.allocated (Book.construct ps tp data) ops,
      data ≤ ptr ∧ (ptr - data) % 16 = 0 :=
  Book.allocated_aligned ops (Book.construct ps tp data)
    ⟨hps, fun p hp => by rw [List.eq_of_mem_replicate hp]; rfl⟩ h16

/-- Witness for C20: five calls with sizes 16, 32 and 48 on a fresh book with one page
of 4096 bytes. -/
theorem book_allocate_aligned_witness :
    4096 % 16 = 0 ∧
    (∀ op ∈ [BookOp.allocate 16, .allocate 32, .free 65536 16, .reallocate 65552 32 48,
        .allocate 16], op.sizes16 = true) ∧
    Book.allocated (Book.construct 4096 1 65536)
      [.allocate 16, .allocate 32, .free 65536 16, .reallocate 65552 32 48, .allocate 16]
        = [65536, 65552, 65600] ∧
    ∀ ptr ∈ Book.allocated (Book.construct 4096 1 65536)
        [.allocate 16, .allocate 32, .free 65536 16, .reallocate 65552 32 48, .allocate 16],
      65536 ≤ ptr ∧ (ptr - 65536) % 16 = 0 :=
  ⟨by decide, by decide, by decide,
    book_allocate_aligned 4096 1 65536 _ (by decide) (by decide)⟩

end das

namespace das

/-! ## Lemmas for the third group of claims -/

theorem add32_of_lt (a b : Nat) (h : a + b < 2 ^ 32) : add32 a b = a + b := by
  unfold add32
  exact Nat.mod_eq_of_lt h

theorem sub32_add_cancel (a b : Nat) (ha : a < 2 ^ 32) (hb : b < 2 ^ 32) :
    sub32 (add32 a b) b = a := by
  unfold sub32 add32
  omega

theorem Page.free_allocate (p : Page) (size pageSize : Nat)
    (hinv : Page.invariant p pageSize) (hps : pageSize < 2 ^ 32) (hsize : size < 2 ^ 32)
    (hok : (p.allocate size pageSize).1 ≠ NOT_ALLOCATED) :
    (p.allocate size pageSize).2.free (p.allocate size pageSize).1 size = p := by
  obtain ⟨h1, h2, h3⟩ := hinv
  have hoff : p.offset < 2 ^ 32 := by omega
  have htot : p.total < 2 ^ 32 := by omega
  unfold Page.allocate at hok ⊢
  by_cases hfit : add32 p.offset size > pageSize
  · rw [if_pos hfit] at hok
    exact absurd rfl hok
  · rw [if_neg hfit]
    have hloc : sub32 (add32 p.offset size) size = p.offset := sub32_add_cancel _ _ hoff hsize
    have htotal : sub32 (add32 p.total size) size = p.total := sub32_add_cancel _ _ htot hsize
    unfold Page.free
    dsimp only
    rw [hloc, htotal, if_pos rfl]
    by_cases h0 : p.total = 0
    · rw [if_pos h0]
      cases p with
      | mk offset total =>
        dsimp only at h0 h3 ⊢
        rw [h3 h0]
    · rw [if_neg h0]

theorem Book.reallocate_eq_spec (b : Book) (ptr size nsize : Nat) (hptr : ptr ≠ 0)
    (hsize : b.gofs ptr % b.pageSize + size < 2 ^ 32)
    (hnsize : b.gofs ptr % b.pageSize + nsize < 2 ^ 32) :
    b.reallocate ptr size nsize = b.reallocateSpec ptr size nsize := by
  unfold Book.reallocate Book.reallocateSpec
  rw [if_neg hptr]
  by_cases heq : size = nsize
  · rw [if_pos heq]
    dsimp only
    rw [if_pos heq]
  · rw [if_neg heq]
    dsimp only
    rw [if_neg heq]
    unfold Page.reallocate
    rw [add32_of_lt _ _ hsize, add32_of_lt _ _ hnsize]
    by_cases htop : b.gofs ptr % b.pageSize + size = (b.page (b.gofs ptr / b.pageSize)).offset
    · by_cases hfit : b.gofs ptr % b.pageSize + nsize ≤ b.pageSize
      · have hng : ¬ (b.gofs ptr % b.pageSize + nsize > b.pageSize) := by omega
        have hnt : ¬ (b.gofs ptr % b.pageSize + size ≠
            (b.page (b.gofs ptr / b.pageSize)).offset) := fun h => h htop
        have hand : b.gofs ptr % b.pageSize + size = (b.page (b.gofs ptr / b.pageSize)).offset ∧
            b.gofs ptr % b.pageSize + nsize ≤ b.pageSize := ⟨htop, hfit⟩
        rw [if_neg hnt, if_neg hng, if_pos hand]
        dsimp only
        have hcur : add32 (sub32 (b.page (b.gofs ptr / b.pageSize)).offset size) nsize =
            b.gofs ptr % b.pageSize + nsize := by
          rw [← htop]
          unfold add32 sub32
          omega
        rw [hcur]
        by_cases h0 : add32 (sub32 (b.page (b.gofs ptr / b.pageSize)).total size) nsize = 0
        · rw [if_pos h0, if_pos h0, if_pos rfl]
        · rw [if_neg h0, if_neg h0, if_pos rfl]
      · have hg : b.gofs ptr % b.pageSize + nsize > b.pageSize := by omega
        have hnt : ¬ (b.gofs ptr % b.pageSize + size ≠
            (b.page (b.gofs ptr / b.pageSize)).offset) := fun h => h htop
        have hand : ¬ (b.gofs ptr % b.pageSize + size =
            (b.page (b.gofs ptr / b.pageSize)).offset ∧
            b.gofs ptr % b.pageSize + nsize ≤ b.pageSize) := fun h => hfit h.2
        rw [if_neg hnt, if_pos hg, if_neg hand]
        rfl
    · have hand : ¬ (b.gofs ptr % b.pageSize + size =
          (b.page (b.gofs ptr / b.pageSize)).offset ∧
          b.gofs ptr % b.pageSize + nsize ≤ b.pageSize) := fun h => htop h.1
      rw [if_pos htop, if_neg hand]
      rfl

theorem MemoryModel.isOwnPtr_iff (h : MemoryModel) (p : Nat) :
    h.isOwnPtr p = true ↔
      (∃ b ∈ h.shelf, b.data ≤ p ∧ p < b.data + b.totalSize) ∨
        (∃ e ∈ h.bigStuff, e.1 = p) := by
  unfold MemoryModel.isOwnPtr Book.isOwnPtr
  simp [List.any_eq_true]

theorem probeAt_eq_iterate (tab : Table) (hash k : Nat) :
    probeAt tab hash k = (nextIndex tab)^[k] (indexForHash tab hash) := by
  induction k with
  | zero => rfl
  | succ k ih => rw [probeAt, ih, Function.iterate_succ_apply']

/-- If `find`'s loop returns a slot and no tombstone comes before the round in which it
stops, the loop of `reserve` returns the same slot. -/
theorem reserveLoop_of_findLoop (th : TableHash) (m : Memory) (tab : Table) (key hash : Nat)
    (s : Int) (hs : s ≠ -1) (n i : Nat) (index : Int)
    (hfind : findLoop th m tab key hash n i index = s)
    (hkilled : ∀ j, j < n → readHash m tab ((nextIndex tab)^[j] index) = HASH_KILLED →
      ∃ k, k < j ∧ (readHash m tab ((nextIndex tab)^[k] index) = HASH_EMPTY ∨
        (readHash m tab ((nextIndex tab)^[k] index) = hash ∧
          readKey th m tab (toInt32 (i + k)) = key))) :
    reserveLoop th m tab key hash n i index = some s := by
  induction n generalizing i index with
  | zero =>
    rw [findLoop] at hfind
    exact absurd hfind.symm hs
  | succ n ih =>
    rw [findLoop] at hfind
    rw [reserveLoop]
    by_cases hE : readHash m tab index = HASH_EMPTY
    · rw [if_pos hE] at hfind
      exact absurd hfind.symm hs
    · rw [if_neg hE] at hfind
      have hK : readHash m tab index ≠ HASH_KILLED := by
        intro hk
        obtain ⟨k, hk0, _⟩ := hkilled 0 (Nat.succ_pos n) hk
        exact absurd hk0 (Nat.not_lt_zero k)
      have hEK : ¬ (readHash m tab index = HASH_EMPTY ∨ readHash m tab index = HASH_KILLED) := by
        intro h
        cases h with
        | inl h => exact hE h
        | inr h => exact hK h
      rw [if_neg hEK]
      by_cases hM : readHash m tab index = hash ∧ readKey th m tab (toInt32 i) = key
      · rw [if_pos hM] at hfind
        rw [if_pos hM, hfind]
      · rw [if_neg hM] at hfind
        rw [if_neg hM]
        apply ih (i + 1) (nextIndex tab index) hfind
        intro j hj hkj
        rw [← Function.iterate_succ_apply] at hkj
        obtain ⟨k, hk, hstop⟩ := hkilled (j + 1) (Nat.succ_lt_succ hj) hkj
        cases k with
        | zero =>
          exfalso
          cases hstop with
          | inl h => exact hE h
          | inr h => exact hM h
        | succ k =>
          refine ⟨k, Nat.lt_of_succ_lt_succ hk, ?_⟩
          rw [Function.iterate_succ_apply] at hstop
          have hik : i + (k + 1) = i + 1 + k := by omega
          rw [hik] at hstop
          exact hstop

theorem Book.rotate_step (f tp : Nat) (hf : f < tp) (htp : tp < 2 ^ 32) :
    (if add32 f 1 ≥ tp then 0 else add32 f 1) = (f + 1) % tp := by
  rw [add32_of_lt f 1 (by omega)]
  by_cases h : f + 1 ≥ tp
  · rw [if_pos h]
    have : f + 1 = tp := by omega
    rw [this, Nat.mod_self]
  · rw [if_neg h, Nat.mod_eq_of_lt (by omega)]

theorem Page.allocate_accepts (p : Page) (size pageSize : Nat) (hoff : p.offset ≤ pageSize)
    (hsz : size ≤ pageSize) (hps : pageSize < 2 ^ 31) :
    ((p.allocate size pageSize).1 ≠ NOT_ALLOCATED ↔ p.offset + size ≤ pageSize) ∧
    (p.offset + size ≤ pageSize → (p.allocate size pageSize).1 = p.offset) := by
  unfold Page.allocate
  have hadd : add32 p.offset size = p.offset + size := add32_of_lt _ _ (by omega)
  rw [hadd]
  by_cases h : p.offset + size > pageSize
  · rw [if_pos h]
    exact ⟨⟨fun hne => absurd rfl hne, fun hle => by omega⟩, fun hle => by omega⟩
  · rw [if_neg h]
    have hloc : sub32 (p.offset + size) size = p.offset := by
      unfold sub32
      omega
    dsimp only
    rw [hloc]
    refine ⟨⟨fun _ => by omega, fun _ => ?_⟩, fun _ => rfl⟩
    unfold NOT_ALLOCATED
    omega

theorem Book.page_offset_le_of (b : Book) (hoff : ∀ p ∈ b.pages, p.offset ≤ b.pageSize)
    (i : Nat) : (b.page i).offset ≤ b.pageSize := by
  unfold Book.page
  by_cases hi : i < b.pages.length
  · rw [List.getD_eq_getElem _ _ hi]
    exact hoff _ (List.getElem_mem hi)
  · rw [List.getD_eq_default _ _ (by omega)]
    exact Nat.zero_le _

theorem Book.rotation_shift (f tp n : Nat) :
    (List.range n).map ((fun k => (f + k) % tp) ∘ Nat.succ) =
      (List.range n).map (fun k => ((f + 1) % tp + k) % tp) := by
  apply List.map_congr_left
  intro k _
  simp only [Function.comp]
  rw [Nat.mod_add_mod]
  congr 1
  omega

theorem Book.allocateLoop_eq_find (size : Nat) (n : Nat) (b : Book)
    (hoff : ∀ p ∈ b.pages, p.offset ≤ b.pageSize)
    (hf : b.freePageIndex < b.totalPages) (hprod : b.pageSize * b.totalPages < 2 ^ 32)
    (hps : b.pageSize < 2 ^ 31) (htp : b.totalPages < 2 ^ 32) (htf : b.totalFree < 2 ^ 32)
    (hsz : size ≤ b.pageSize) (hsf : size ≤ b.totalFree) :
    Book.allocateLoop size n b =
      match ((List.range n).map (fun k => (b.freePageIndex + k) % b.totalPages)).find?
          (b.accepts size) with
      | none => (0, { b with freePageIndex := (b.freePageIndex + n) % b.totalPages })
      | some i =>
        (b.data + i * b.pageSize + (b.page i).offset,
          { b with pages := b.pages.set i ((b.page i).allocate size b.pageSize).2,
                   totalFree := b.totalFree - size, freePageIndex := i }) := by
  induction n generalizing b with
  | zero =>
    rw [Book.allocateLoop]
    simp only [List.range_zero, List.map_nil, List.find?_nil, Nat.add_zero,
      Nat.mod_eq_of_lt hf]
  | succ n ih =>
    have hacc := Page.allocate_accepts (b.page b.freePageIndex) size b.pageSize
      (Book.page_offset_le_of b hoff _) hsz hps
    have hhead : (b.freePageIndex + 0) % b.totalPages = b.freePageIndex := by
      rw [Nat.add_zero, Nat.mod_eq_of_lt hf]
    rw [Book.allocateLoop, List.range_succ_eq_map, List.map_cons, List.map_map, hhead]
    by_cases ha : (b.page b.freePageIndex).offset + size ≤ b.pageSize
    · have hyes : b.accepts size b.freePageIndex = true := by
        unfold Book.accepts
        exact decide_eq_true ha
      rw [if_pos (hacc.1.2 ha), List.find?_cons_of_pos _ hyes]
      dsimp only
      have hmul : b.freePageIndex * b.pageSize % 2 ^ 32 = b.freePageIndex * b.pageSize := by
        apply Nat.mod_eq_of_lt
        have := Nat.mul_le_mul_right b.pageSize (Nat.le_of_lt hf)
        rw [Nat.mul_comm b.totalPages] at this
        omega
      have hsub : sub32 b.totalFree size = b.totalFree - size := by
        unfold sub32
        omega
      rw [hmul, hacc.2 ha, hsub]
    · have hno : ¬ (b.accepts size b.freePageIndex = true) := by
        unfold Book.accepts
        intro h
        exact ha (of_decide_eq_true h)
      have hnot : ¬ ((b.page b.freePageIndex).allocate size b.pageSize).1 ≠ NOT_ALLOCATED :=
        fun h => ha (hacc.1.1 h)
      rw [if_neg hnot, Book.set_refused b size hoff hps hnot,
        List.find?_cons_of_neg _ hno, Book.rotate_step _ _ hf htp, Book.rotation_shift]
      have hlt : (b.freePageIndex + 1) % b.totalPages < b.totalPages :=
        Nat.mod_lt _ (by omega)
      rw [ih { b with freePageIndex := (b.freePageIndex + 1) % b.totalPages } hoff hlt hprod
        hps htp htf hsz hsf]
      dsimp only
      have hend : ((b.freePageIndex + 1) % b.totalPages + n) % b.totalPages =
          (b.freePageIndex + (n + 1)) % b.totalPages := by
        rw [Nat.mod_add_mod]
        congr 1
        omega
      rw [hend]
      rfl

theorem Book.mem_rotation (b : Book) (hf : b.freePageIndex < b.totalPages ∨ b.totalPages = 0)
    (i : Nat) : i ∈ b.rotation ↔ i < b.totalPages := by
  unfold Book.rotation
  rw [List.mem_map]
  constructor
  · rintro ⟨k, hk, rfl⟩
    rw [List.mem_range] at hk
    exact Nat.mod_lt _ (by omega)
  · intro hi
    have hf1 : b.freePageIndex < b.totalPages := by
      cases hf with
      | inl h => exact h
      | inr h => omega
    refine ⟨(i + b.totalPages - b.freePageIndex) % b.totalPages, ?_, ?_⟩
    · rw [List.mem_range]
      exact Nat.mod_lt _ (by omega)
    · rw [Nat.add_mod_mod]
      have : b.freePageIndex + (i + b.totalPages - b.freePageIndex) = i + b.totalPages := by
        omega
      rw [this, Nat.add_mod_right, Nat.mod_eq_of_lt hi]

theorem Book.allocate_eq_spec (b : Book) (size : Nat)
    (hwf : b.wellFormed ∨ b.totalPages = 0) (hr : b.inRange) :
    b.allocate size = b.allocateSpec size := by
  unfold Book.allocate Book.allocateSpec
  by_cases h1 : size > b.pageSize
  · rw [if_pos h1, if_pos (Or.inl h1)]
  · by_cases h2 : size > b.totalFree
    · rw [if_neg h1, if_pos h2, if_pos (Or.inr h2)]
    · have h12 : ¬ (size > b.pageSize ∨ size > b.totalFree) := by
        intro h
        cases h with
        | inl h => exact h1 h
        | inr h => exact h2 h
      rw [if_neg h1, if_neg h2, if_neg h12]
      cases hwf with
      | inl hwf =>
        obtain ⟨_, hoff, hf, hts, hlt, hps⟩ := hwf
        rw [Book.allocateLoop_eq_find size b.totalPages b hoff hf (by omega) hps hr.1 hr.2
          (by omega) (by omega)]
        unfold Book.rotation
        generalize List.find? (b.accepts size)
          (List.map (fun k => (b.freePageIndex + k) % b.totalPages) (List.range b.totalPages)) = r
        cases r with
        | none =>
          dsimp only
          rw [Nat.add_mod_right, Nat.mod_eq_of_lt hf]
        | some i => rfl
      | inr h0 =>
        unfold Book.rotation
        rw [h0]
        rfl

theorem Book.allocateSpec_null_iff (b : Book) (size : Nat)
    (hf : b.freePageIndex < b.totalPages ∨ b.totalPages = 0) (hdata : 0 < b.data)
    (h1 : size ≤ b.pageSize) (h2 : size ≤ b.totalFree) :
    (b.allocateSpec size).1 = 0 ↔
      ∀ i, i < b.totalPages → (b.page i).offset + size > b.pageSize := by
  unfold Book.allocateSpec
  have h12 : ¬ (size > b.pageSize ∨ size > b.totalFree) := by
    intro h
    cases h with
    | inl h => omega
    | inr h => omega
  rw [if_neg h12]
  cases hfind : b.rotation.find? (b.accepts size) with
  | none =>
    dsimp only
    refine ⟨fun _ i hi => ?_, fun _ => rfl⟩
    rw [List.find?_eq_none] at hfind
    have hno := hfind i ((Book.mem_rotation b hf i).2 hi)
    unfold Book.accepts at hno
    have hle : ¬ ((b.page i).offset + size ≤ b.pageSize) := fun h => hno (decide_eq_true h)
    omega
  | some i =>
    dsimp only
    constructor
    · intro h
      omega
    · intro hall
      have hi : i < b.totalPages := (Book.mem_rotation b hf i).1 (List.mem_of_find?_eq_some hfind)
      have hacc := List.find?_some hfind
      unfold Book.accepts at hacc
      have hle : (b.page i).offset + size ≤ b.pageSize := of_decide_eq_true hacc
      have := hall i hi
      omega

/-- The memory after `erase` is the memory before, or differs from it in the 8 bytes of
the returned hash slot, which hold `HASH_KILLED`. -/
theorem eraseLoop_writes (th : TableHash) (m : Memory) (tab : Table) (key hash : Nat)
    (n i : Nat) (index : Int) :
    (eraseLoop th m tab key hash n i index).2 = m ∨
      (eraseLoop th m tab key hash n i index).2 =
        store m (elemAddr tab.hashes 8 (eraseLoop th m tab key hash n i index).1) 8
          HASH_KILLED := by
  induction n generalizing i index with
  | zero => exact Or.inl rfl
  | succ n ih =>
    simp only [eraseLoop]
    split_ifs
    · exact Or.inl rfl
    · exact Or.inr rfl
    · exact ih _ _

/-- A table that `grow` swaps in is the one built by `newTable` (lines 133-146). -/
theorem growFrom_newTable (th : TableHash) (fuel : Nat) (ctx : Context) (tab : Table)
    (newCapacity : Nat) (r : Bool × Table × Context)
    (h : growFrom th fuel ctx tab newCapacity = some r) :
    r.2.1 = tab ∨ r.2.1 = newTable th tab r.2.1.capacity r.2.1.data := by
  induction fuel generalizing ctx newCapacity with
  | zero => simp [growFrom] at h
  | succ fuel ih =>
    rw [growFrom] at h
    simp only at h
    split_ifs at h with h1 h2 h3
    · simp only [Option.some.injEq] at h
      subst h
      exact Or.inl rfl
    · simp only [Option.some.injEq] at h
      subst h
      exact Or.inr rfl
    · exact ih _ _ h
    · simp only [Option.some.injEq] at h
      subst h
      exact Or.inl rfl

end das

namespace das

/-! ## The claims, third group -/

/-- C21 (Book accounting invariant: `totalFree` is the sum over the pages of
`pageSize − total`), evaluated on a fresh book with one page of 4096 bytes at address
65536: `allocate(16)` returns A at 65536, `allocate(16)` returns B at 65552,
`free(A, 16)` leaves `totalFree = 4080`, which is the sum; `reallocate(B, 16, 2^32 - 16)`
then succeeds in place (`loc + nsize` wraps around to 0) and leaves `totalFree = 4112`
while the page's `total` is `2^32 - 16`, so the sum is `4096 − 4294967280`. -/
theorem book_total_free_differs_from_page_sum_after_reallocate_wrap :
    (Book.construct 4096 1 65536).allocate 16 = (65536, wrapBook1) ∧
    wrapBook1.allocate 16 = (65552, wrapBook2) ∧
    (wrapBook2.free 65536 16).totalFree = 4080 ∧
    (wrapBook2.free 65536 16).freeSum = 4080 ∧
    ((wrapBook2.free 65536 16).reallocate 65552 16 (2 ^ 32 - 16)).1 = 65552 ∧
    ((wrapBook2.free 65536 16).reallocate 65552 16 (2 ^ 32 - 16)).2.totalFree = 4112 ∧
    (((wrapBook2.free 65536 16).reallocate 65552 16 (2 ^ 32 - 16)).2.page 0).total
      = 4294967280 ∧
    ((wrapBook2.free 65536 16).reallocate 65552 16 (2 ^ 32 - 16)).2.freeSum
      = 4096 - 4294967280 := by
  decide

/-- C22 (`Book::allocate` as specified): for a well-formed book (or one without pages)
whose fields are 32-bit values, `Book::allocate(size)` is the specified function: null
and no change when `size > pageSize` or `size > totalFree`; otherwise null when every
page refuses, and else the block comes from the first accepting page at or cyclically
after `freePageIndex`, `totalFree` drops by `size` and the pointer is
`data + pageIndex × pageSize + previous offset`. With a non-null slab address the
result is null if and only if `offset + size > pageSize` on every page. -/
theorem book_allocate_matches_spec (b : Book) (size : Nat)
    (hwf : b.wellFormed ∨ b.totalPages = 0) (hr : b.inRange) :
    b.allocate size = b.allocateSpec size ∧
    (0 < b.data → size ≤ b.pageSize → size ≤ b.totalFree →
      ((b.allocate size).1 = 0 ↔
        ∀ i, i < b.totalPages → (b.page i).offset + size > b.pageSize)) := by
  refine ⟨Book.allocate_eq_spec b size hwf hr, fun hdata h1 h2 => ?_⟩
  rw [Book.allocate_eq_spec b size hwf hr]
  refine Book.allocateSpec_null_iff b size ?_ hdata h1 h2
  cases hwf with
  | inl h => exact Or.inl h.2.2.1
  | inr h => exact Or.inr h

/-- Witness for C22: on `rotBook` a request of 200 bytes is refused by page 2 (the
rotation cursor) and by page 0 and served by page 1 at its cursor 100. -/
theorem book_allocate_matches_spec_witness :
    rotBook.wellFormed ∧ rotBook.inRange ∧
    (rotBook.allocate 200 = rotBook.allocateSpec 200 ∧
      (0 < rotBook.data → 200 ≤ rotBook.pageSize → 200 ≤ rotBook.totalFree →
        ((rotBook.allocate 200).1 = 0 ↔
          ∀ i, i < rotBook.totalPages → (rotBook.page i).offset + 200 > rotBook.pageSize))) ∧
    rotBook.allocate 200 =
      (65536 + 1 * 4096 + 100,
        { rotBook with pages := [⟨4000, 4000⟩, ⟨300, 300⟩, ⟨4096, 4096⟩], totalFree := 3892,
                       freePageIndex := 1 }) :=
  have hwf : rotBook.wellFormed := by
    unfold Book.wellFormed
    decide
  have hr : rotBook.inRange := by
    unfold Book.inRange
    decide
  ⟨hwf, hr, book_allocate_matches_spec rotBook 200 (Or.inl hwf) hr, by decide⟩

/-- C23 (LIFO reclamation): for a page that satisfies the page invariant, if
`Page::allocate(size)` succeeds with location `loc`, then `Page::free(loc, size)` right
afterwards gives back the page as it was (the same `offset` and `total`); and on a
fresh page of 64 KiB, allocating 1 KiB blocks A, B, C (at 0, 1024, 2048) and freeing C
and then B leaves `offset = 1024`, and a following allocation of 2 KiB succeeds at
location 1024. Sizes and the page size are 32-bit values. -/
theorem page_free_after_allocate_restores (p : Page) (size pageSize : Nat)
    (hinv : Page.invariant p pageSize) (hps : pageSize < 2 ^ 32) (hsize : size < 2 ^ 32)
    (hok : (p.allocate size pageSize).1 ≠ NOT_ALLOCATED) :
    (p.allocate size pageSize).2.free (p.allocate size pageSize).1 size = p ∧
    (PageRun.run 65536 PageRun.fresh [.allocate 1024, .allocate 1024, .allocate 1024]).live
      = [(2048, 1024), (1024, 1024), (0, 1024)] ∧
    (PageRun.run 65536 PageRun.fresh
      [.allocate 1024, .allocate 1024, .allocate 1024, .free 2048 1024,
        .free 1024 1024]).page.offset = 1024 ∧
    ((PageRun.run 65536 PageRun.fresh
      [.allocate 1024, .allocate 1024, .allocate 1024, .free 2048 1024,
        .free 1024 1024]).page.allocate 2048 65536).1 = 1024 :=
  ⟨Page.free_allocate p size pageSize hinv hps hsize hok, by decide, by decide, by decide⟩

/-- Witness for C23: a page of 64 KiB with two blocks of 1 KiB, and a third one
allocated and freed again. -/
theorem page_free_after_allocate_restores_witness :
    Page.invariant ⟨2048, 2048⟩ 65536 ∧
    ((⟨2048, 2048⟩ : Page).allocate 1024 65536).1 = 2048 ∧
    ((⟨2048, 2048⟩ : Page).allocate 1024 65536).2.free
      ((⟨2048, 2048⟩ : Page).allocate 1024 65536).1 1024 = ⟨2048, 2048⟩ :=
  have hinv : Page.invariant ⟨2048, 2048⟩ 65536 := by
    unfold Page.invariant
    decide
  ⟨hinv, by decide,
    (page_free_after_allocate_restores ⟨2048, 2048⟩ 1024 65536 hinv (by decide)
      (by decide) (by decide)).1⟩

/-- C24, as stated (a successful `Book::reallocate` sets the page's offset to
`loc + nsize`, and succeeds exactly when the block is on top and
`loc + nsize ≤ pageSize`), fails. On the book with blocks A at 65536 and B at 65552
after `free(A, 16)`, `reallocate(B, 16, 0)` succeeds and the page's `total` becomes 0,
so the page's offset is reset to 0 and not to `loc + nsize = 16`. And on the book with
A and B live, `reallocate(B, 16, 2^32 - 16)` succeeds although
`loc + nsize = 16 + (2^32 - 16)` is above `pageSize = 4096`, because the sum is taken
in 32 bits. -/
theorem book_reallocate_resets_offset_or_wraps :
    (wrapBook2.free 65536 16).gofs 65552 % 4096 = 16 ∧
    ((wrapBook2.free 65536 16).reallocate 65552 16 0).1 = 65552 ∧
    (((wrapBook2.free 65536 16).reallocate 65552 16 0).2.page 0).offset = 0 ∧
    wrapBook2.gofs 65552 % 4096 = 16 ∧
    (wrapBook2.reallocate 65552 16 (2 ^ 32 - 16)).1 = 65552 ∧
    ¬ (16 + (2 ^ 32 - 16) ≤ wrapBook2.pageSize) := by
  decide

/-- C24, amended: for a non-null `ptr` whose sums `loc + size` and `loc + nsize` fit in
32 bits (`loc` is the offset of `ptr` in its page), `Book::reallocate(ptr, size, nsize)`
returns `ptr` with no state change when `size = nsize`; otherwise it succeeds exactly
when `loc + size = offset` and `loc + nsize ≤ pageSize`, and then it returns `ptr`,
sets the page's offset to `loc + nsize`, or to 0 when the page's `total` becomes 0,
and changes `totalFree` by `size − nsize`; in every other case it returns null and
leaves the book unchanged. -/
theorem book_reallocate_matches_amended_spec (b : Book) (ptr size nsize : Nat)
    (hptr : ptr ≠ 0)
    (hsize : b.gofs ptr % b.pageSize + size < 2 ^ 32)
    (hnsize : b.gofs ptr % b.pageSize + nsize < 2 ^ 32) :
    b.reallocate ptr size nsize = b.reallocateSpec ptr size nsize :=
  Book.reallocate_eq_spec b ptr size nsize hptr hsize hnsize

/-- Witness for C24: block B (16 bytes at 65552, on top of its page) grows to 48
bytes; the page cursor moves from 32 to 64 and `totalFree` from 4064 to 4032. -/
theorem book_reallocate_matches_amended_spec_witness :
    (65552 : Nat) ≠ 0 ∧ wrapBook2.gofs 65552 % wrapBook2.pageSize + 16 < 2 ^ 32 ∧
    wrapBook2.gofs 65552 % wrapBook2.pageSize + 48 < 2 ^ 32 ∧
    wrapBook2.reallocate 65552 16 48 = wrapBook2.reallocateSpec 65552 16 48 ∧
    wrapBook2.reallocateSpec 65552 16 48 =
      (65552, { wrapBook2 with pages := [⟨64, 64⟩], totalFree := 4032 }) :=
  ⟨by decide, by decide, by decide,
    book_reallocate_matches_amended_spec wrapBook2 65552 16 48 (by decide) (by decide)
      (by decide), by decide⟩

/-- C25, as stated (`MemoryModel::isOwnPtr` is false for a pointer into a book's slab
that was never allocated or has been freed), fails. The heap `oneBookHeap` holds one
book from which a single block was ever allocated, 16 bytes at 65536; `isOwnPtr` is
true for 65536 + 1024, which no allocation returned, and it is still true for 65536
after `free(65536, 16)`. -/
theorem isOwnPtr_true_for_unallocated_and_freed_pointers :
    (Book.construct 4096 1 65536).allocate 16 = (65536, wrapBook1) ∧
    Book.allocated (Book.construct 4096 1 65536) [.allocate 16] = [65536] ∧
    oneBookHeap.isOwnPtr (65536 + 1024) = true ∧
    (MemoryModel.mk 4096 [wrapBook1.free 65536 16] []).isOwnPtr 65536 = true := by
  decide

/-- C25, amended: `MemoryModel::isOwnPtr(p)` is true if and only if `p` lies in the
slab `[data, data + totalSize)` of one of the heap's books or is a key of the
big-stuff map; in particular it is true for every pointer into a book's slab, whether
or not that address was ever allocated or has been freed. -/
theorem isOwnPtr_iff_in_slab_or_big_stuff (h : MemoryModel) (p : Nat) :
    (h.isOwnPtr p = true ↔
      (∃ b ∈ h.shelf, b.data ≤ p ∧ p < b.data + b.totalSize) ∨
        (∃ e ∈ h.bigStuff, e.1 = p)) ∧
    (∀ b ∈ h.shelf, b.data ≤ p ∧ p < b.data + b.totalSize → h.isOwnPtr p = true) :=
  ⟨MemoryModel.isOwnPtr_iff h p,
    fun b hb hp => (MemoryModel.isOwnPtr_iff h p).2 (Or.inl ⟨b, hb, hp⟩)⟩

/-- Witness for C25: the address 65536 + 1024 lies in the slab of the only book of
`oneBookHeap` and is owned, and the address 65536 + 4096, one past the slab, is not. -/
theorem isOwnPtr_iff_in_slab_or_big_stuff_witness :
    wrapBook1 ∈ oneBookHeap.shelf ∧
    (wrapBook1.data ≤ 65536 + 1024 ∧ 65536 + 1024 < wrapBook1.data + wrapBook1.totalSize) ∧
    oneBookHeap.isOwnPtr (65536 + 1024) = true ∧
    oneBookHeap.isOwnPtr (65536 + 4096) = false :=
  ⟨by decide, by decide,
    (isOwnPtr_iff_in_slab_or_big_stuff oneBookHeap (65536 + 1024)).2 wrapBook1 (by decide)
      (by decide), by decide⟩

/-- C26 (`find` is sound: the returned slot holds the searched hash and the searched
key), evaluated on `collisionTable` (capacity 64): `find` for key 63 with hash 63
returns slot 63, whose hash is 63 but whose key is 4159; key 63 is stored in slot 0.
The loop compares `pKeys[i]` (the loop counter) and not `pKeys[index]`. -/
theorem find_returns_slot_holding_another_key :
    collisionTable.capacity = 64 ∧
    find th88 collisionMem collisionTable 63 63 = 63 ∧
    readHash collisionMem collisionTable 63 = 63 ∧
    readKey th88 collisionMem collisionTable 63 = 4159 ∧
    readKey th88 collisionMem collisionTable 0 = 63 := by
  decide

/-- C27 (`find` returns the first slot in the probe window that stores the key with
its hash), evaluated on `lockedTable`: key 5 is stored with hash 5 in slot 5, the first
slot of its probe order, and `find` returns `-1`, because it compares the searched key
with `pKeys[0]`, the key 128 of slot 0, and the next probed slot 6 is empty. -/
theorem find_misses_key_in_its_home_slot :
    indexForHash lockedTable 5 = 5 ∧
    readHash lockedMem lockedTable 5 = 5 ∧
    readKey th88 lockedMem lockedTable 5 = 5 ∧
    readKey th88 lockedMem lockedTable 0 = 128 ∧
    readHash lockedMem lockedTable 6 = HASH_EMPTY ∧
    find th88 lockedMem lockedTable 5 5 = -1 := by
  decide

/-- C28, as stated (`reserve` returns the slot `find` returns, even when a tombstone
precedes it in the probe order), fails: in `tombstoneFirstMem` slot 0 is a tombstone
and slot 1 holds key 64 with hash 64 (home slot 0); `find` returns slot 1 and
`reserve` returns slot 0, the tombstone, without growing the table. -/
theorem reserve_returns_tombstone_before_found_slot :
    readHash tombstoneFirstMem emptyTable64 0 = HASH_KILLED ∧
    find th88 tombstoneFirstMem emptyTable64 64 64 = 1 ∧
    (reserve th88 1 1 ⟨tombstoneFirstMem, 0, okHeap, []⟩ emptyTable64 64 64).map
      (fun r => (r.1, r.2.1, r.2.2.heapCalls)) = some (0, emptyTable64, 0) := by
  decide

/-- C28, amended: if `find` returns a slot `s ≠ -1` and no tombstone precedes it in the
probe order (every `HASH_KILLED` slot of the probe window comes after a round in which
the loop of `find` stops), then `reserve` on the same table, key and hash returns `s`
and leaves the table and the context as they were. -/
theorem reserve_returns_found_slot_without_earlier_tombstone (th : TableHash)
    (growFuel fuel : Nat) (ctx : Context) (tab : Table) (key hash : Nat) (s : Int)
    (hfind : find th ctx.mem tab key hash = s) (hs : s ≠ -1)
    (hkilled : ∀ j, j < tab.maxLookups →
      readHash ctx.mem tab (probeAt tab hash j) = HASH_KILLED →
        ∃ k, k < j ∧ findStops th ctx.mem tab key hash k) :
    reserve th growFuel (fuel + 1) ctx tab key hash = some (s, tab, ctx) := by
  apply reserve_of_probe
  apply reserveLoop_of_findLoop th ctx.mem tab key hash s hs _ _ _ hfind
  intro j hj hk
  rw [← probeAt_eq_iterate] at hk
  obtain ⟨k, hkj, hstop⟩ := hkilled j hj hk
  refine ⟨k, hkj, ?_⟩
  unfold findStops at hstop
  rw [probeAt_eq_iterate, Nat.zero_add] at *
  exact hstop

/-- Witness for C28: in `collisionTable` the probe order of hash 63 is slot 63, slot 0,
slot 1 (a tombstone), ...; `find` for key 63 stops in round 0 at slot 63, before the
tombstone, and `reserve` returns slot 63 as well. -/
theorem reserve_returns_found_slot_without_earlier_tombstone_witness :
    find th88 collisionMem collisionTable 63 63 = 63 ∧
    readHash collisionMem collisionTable (probeAt collisionTable 63 2) = HASH_KILLED ∧
    reserve th88 1 1 ⟨collisionMem, 0, okHeap, []⟩ collisionTable 63 63
      = some (63, collisionTable, ⟨collisionMem, 0, okHeap, []⟩) :=
  ⟨by decide, by decide,
    reserve_returns_found_slot_without_earlier_tombstone th88 1 0
      ⟨collisionMem, 0, okHeap, []⟩ collisionTable 63 63 63 (by decide) (by decide)
      (by unfold findStops; decide)⟩

/-- C29 (`erase` leaves every key and every value unchanged), evaluated on
`grownTable`, the table `grow` lays out for 8 byte keys with capacity 128
(`hashes = keys + 128`), holding key 7 (hash 128) in slot 0 and key 128 (hash 16) in
slot 16: `erase` of key 7 returns slot 0 and writes `HASH_KILLED` into hash slot 0,
whose 8 bytes are the bytes of key slot 16, so the key of the live slot 16 changes
from 128 to `HASH_KILLED`. -/
theorem erase_overwrites_key_of_other_slot_in_grown_table :
    grownTable.keys = grownTable.data + 128 * 8 ∧
    grownTable.hashes = grownTable.keys + 128 ∧
    elemAddr grownTable.hashes 8 0 = elemAddr grownTable.keys 8 16 ∧
    readHash grownMem grownTable 0 = 128 ∧
    readKey th88 grownMem grownTable 0 = 7 ∧
    readHash grownMem grownTable 16 = 16 ∧
    readKey th88 grownMem grownTable 16 = 128 ∧
    (erase th88 grownMem grownTable 7 128).1 = 0 ∧
    readHash (erase th88 grownMem grownTable 7 128).2 grownTable 16 = 16 ∧
    readKey th88 (erase th88 grownMem grownTable 7 128).2 grownTable 16 = HASH_KILLED := by
  decide

/-- C30 (buffer layout: values, keys and hashes regions are pairwise disjoint, the
hashes region starting at `capacity × (valueSize + keySize)`): every table that `grow`
swaps in is built by `newTable`, which puts `hashes` at `keys + capacity`, that is at
offset `capacity × valueSize + capacity`. For 8 byte keys and values and capacity 128
in a buffer at 65536 the keys region is `[66560, 67584)` and the hashes region starts
at 66688, inside the keys region, instead of at 67584. -/
theorem grow_puts_hashes_inside_keys_region (th : TableHash) (fuel : Nat) (ctx : Context)
    (tab : Table) (newCapacity data : Nat) :
    (match grow th fuel ctx tab with
      | some r => r.2.1 = tab ∨ r.2.1 = newTable th tab r.2.1.capacity r.2.1.data
      | none => True) ∧
    (newTable th tab newCapacity data).hashes
      = (newTable th tab newCapacity data).keys + newCapacity ∧
    (newTable th88 oneEntryTable 128 65536).keys = 65536 + 128 * 8 ∧
    (newTable th88 oneEntryTable 128 65536).hashes = 65536 + 128 * 8 + 128 ∧
    65536 + 128 * 8 + 128 < 65536 + 128 * (8 + 8) := by
  refine ⟨?_, rfl, by decide, by decide, by decide⟩
  cases h : grow th fuel ctx tab with
  | none => trivial
  | some r => exact growFrom_newTable th fuel ctx tab _ r h

end das

namespace das

/-! ## Lemmas for the fourth group of claims -/

theorem load_store_disjoint (m : Memory) (p n v q k : Nat) (h : q + k ≤ p ∨ p + n ≤ q) :
    load (store m p n v) q k = load m q k := by
  induction k generalizing q with
  | zero => rfl
  | succ k ih =>
    rw [load, load, ih (q + 1) (by omega)]
    have hq : ¬ (p ≤ q ∧ q < p + n) := by omega
    simp only [store, if_neg hq]

theorem load_store_part (m : Memory) (p n v : Nat) (k i : Nat) (h : i + k ≤ n) :
    load (store m p n v) (p + i) k = v / 256 ^ i % 256 ^ k := by
  induction k generalizing i with
  | zero => simp [load, Nat.mod_one]
  | succ k ih =>
    rw [load, Nat.add_assoc, ih (i + 1) (by omega)]
    have hq : p ≤ p + i ∧ p + i < p + n := by omega
    simp only [store, if_pos hq, Nat.add_sub_cancel_left, Nat.mod_mod]
    rw [pow_succ 256 k, Nat.mul_comm (256 ^ k) 256, Nat.mod_mul, pow_succ 256 i,
      Nat.div_div_eq_div_mul]

theorem load_store_same (m : Memory) (p n v : Nat) (hv : v < 256 ^ n) :
    load (store m p n v) p n = v := by
  have h := load_store_part m p n v n 0 (by omega)
  rw [Nat.add_zero, pow_zero, Nat.div_one, Nat.mod_eq_of_lt hv] at h
  exact h

theorem elemAddr_natCast (p stride n : Nat) : elemAddr p stride (n : Int) = p + stride * n := by
  unfold elemAddr
  have : (p : Int) + (stride : Int) * (n : Int) = ((p + stride * n : Nat) : Int) := by
    push_cast
    rfl
  rw [this, Int.toNat_natCast]

theorem toInt32_of_lt (u : Nat) (h : u < 2 ^ 31) : toInt32 u = (u : Int) := by
  unfold toInt32
  have h1 : u % 2 ^ 32 = u := Nat.mod_eq_of_lt (by omega)
  rw [h1, if_pos h]

theorem capacityMask_of_pos (tab : Table) (h0 : 0 < tab.capacity) (h1 : tab.capacity ≤ 2 ^ 31) :
    capacityMask tab = tab.capacity - 1 := by
  unfold capacityMask
  omega

theorem indexForHash_range (tab : Table) (hash : Nat) (h0 : 0 < tab.capacity)
    (h1 : tab.capacity ≤ 2 ^ 31) :
    ∃ n, n < tab.capacity ∧ indexForHash tab hash = (n : Int) := by
  unfold indexForHash
  rw [capacityMask_of_pos tab h0 h1]
  have hle : hash &&& (tab.capacity - 1) ≤ tab.capacity - 1 := Nat.and_le_right
  exact ⟨hash &&& (tab.capacity - 1), by omega, toInt32_of_lt _ (by omega)⟩

theorem nextIndex_range (tab : Table) (index : Int) (h0 : 0 < tab.capacity)
    (h1 : tab.capacity ≤ 2 ^ 31) :
    ∃ n, n < tab.capacity ∧ nextIndex tab index = (n : Int) := by
  unfold nextIndex
  rw [capacityMask_of_pos tab h0 h1]
  have hle : toUInt32 (index + 1) &&& (tab.capacity - 1) ≤ tab.capacity - 1 := Nat.and_le_right
  exact ⟨toUInt32 (index + 1) &&& (tab.capacity - 1), by omega, toInt32_of_lt _ (by omega)⟩

theorem probeAt_range (tab : Table) (hash k : Nat) (h0 : 0 < tab.capacity)
    (h1 : tab.capacity ≤ 2 ^ 31) :
    ∃ n, n < tab.capacity ∧ probeAt tab hash k = (n : Int) := by
  cases k with
  | zero => exact indexForHash_range tab hash h0 h1
  | succ k => exact nextIndex_range tab _ h0 h1

/-- Writing hash slot `s` leaves every other hash slot as it was. -/
theorem readHash_store_other (m : Memory) (tab : Table) (s t v : Nat) (hst : t ≠ s) :
    readHash (store m (elemAddr tab.hashes 8 (s : Int)) 8 v) tab (t : Int)
      = readHash m tab (t : Int) := by
  unfold readHash
  rw [elemAddr_natCast, elemAddr_natCast]
  exact load_store_disjoint _ _ _ _ _ _ (by omega)

theorem readHash_store_same (m : Memory) (tab : Table) (s : Int) :
    readHash (store m (elemAddr tab.hashes 8 s) 8 HASH_KILLED) tab s = HASH_KILLED := by
  unfold readHash
  exact load_store_same _ _ _ _ (by decide)

/-- Writing hash slot `s` leaves the key `pKeys[j]` as it was when the first
`maxLookups` key slots and the hash slots do not overlap. -/
theorem readKey_store_hash (th : TableHash) (m : Memory) (tab : Table) (s j v : Nat)
    (hs : s < tab.capacity) (hj : j < tab.maxLookups) (hml : tab.maxLookups < 2 ^ 31)
    (hsep : tab.keys + th.keySize * tab.maxLookups ≤ tab.hashes ∨
      tab.hashes + 8 * tab.capacity ≤ tab.keys) :
    readKey th (store m (elemAddr tab.hashes 8 (s : Int)) 8 v) tab (toInt32 j)
      = readKey th m tab (toInt32 j) := by
  unfold readKey
  rw [toInt32_of_lt j (by omega), elemAddr_natCast, elemAddr_natCast]
  apply load_store_disjoint
  have h1 : th.keySize * (j + 1) ≤ th.keySize * tab.maxLookups :=
    Nat.mul_le_mul_left _ (by omega)
  rw [Nat.mul_add, Nat.mul_one] at h1
  cases hsep with
  | inl h => left; omega
  | inr h => right; omega

/-- A slot returned by the loop of `find` is probed in some round `k`, in which the hash
and `pKeys[i + k]` match; in no earlier round is the probed slot `HASH_EMPTY` or a
match. -/
theorem findLoop_hit (th : TableHash) (m : Memory) (tab : Table) (key hash : Nat)
    (s : Int) (hs : s ≠ -1) (n i : Nat) (index : Int)
    (hfind : findLoop th m tab key hash n i index = s) :
    ∃ k, k < n ∧ (nextIndex tab)^[k] index = s ∧
      (readHash m tab s = hash ∧ readKey th m tab (toInt32 (i + k)) = key) ∧
      readHash m tab s ≠ HASH_EMPTY ∧
      ∀ j, j < k → readHash m tab ((nextIndex tab)^[j] index) ≠ HASH_EMPTY ∧
        ¬ (readHash m tab ((nextIndex tab)^[j] index) = hash ∧
          readKey th m tab (toInt32 (i + j)) = key) := by
  induction n generalizing i index with
  | zero =>
    rw [findLoop] at hfind
    exact absurd hfind.symm hs
  | succ n ih =>
    rw [findLoop] at hfind
    by_cases hE : readHash m tab index = HASH_EMPTY
    · rw [if_pos hE] at hfind
      exact absurd hfind.symm hs
    · rw [if_neg hE] at hfind
      by_cases hM : readHash m tab index = hash ∧ readKey th m tab (toInt32 i) = key
      · rw [if_pos hM] at hfind
        subst hfind
        exact ⟨0, Nat.succ_pos n, rfl, hM, hE, fun j hj => absurd hj (Nat.not_lt_zero j)⟩
      · rw [if_neg hM] at hfind
        obtain ⟨k, hk, hit, hmatch, hne, hbefore⟩ := ih (i + 1) (nextIndex tab index) hfind
        refine ⟨k + 1, Nat.succ_lt_succ hk, ?_, ?_, hne, ?_⟩
        · rw [Function.iterate_succ_apply]
          exact hit
        · have hik : i + (k + 1) = i + 1 + k := by omega
          rw [hik]
          exact hmatch
        · intro j hj
          cases j with
          | zero => exact ⟨hE, hM⟩
          | succ j =>
            have hij : i + (j + 1) = i + 1 + j := by omega
            rw [Function.iterate_succ_apply, hij]
            exact hbefore j (Nat.lt_of_succ_lt_succ hj)

/-- On a hit `erase` writes `HASH_KILLED` into the returned hash slot and nothing else. -/
theorem eraseLoop_snd (th : TableHash) (m : Memory) (tab : Table) (key hash : Nat)
    (n i : Nat) (index : Int) (h : (eraseLoop th m tab key hash n i index).1 ≠ -1) :
    (eraseLoop th m tab key hash n i index).2 =
      store m (elemAddr tab.hashes 8 (eraseLoop th m tab key hash n i index).1) 8
        HASH_KILLED := by
  induction n generalizing i index with
  | zero => exact absurd rfl h
  | succ n ih =>
    simp only [eraseLoop] at h ⊢
    split_ifs at h ⊢
    · exact absurd rfl h
    · rfl
    · exact ih _ _ h

/-- If the slot probed in round `k` is a tombstone and no earlier round meets an empty
slot or a match that is not a tombstone, the loop of `reserve` returns the first
tombstone of the probe order. -/
theorem reserveLoop_first_killed (th : TableHash) (m : Memory) (tab : Table) (key hash : Nat)
    (n i : Nat) (index : Int) (k : Nat) (hk : k < n)
    (hkilled : readHash m tab ((nextIndex tab)^[k] index) = HASH_KILLED)
    (hbefore : ∀ j, j < k → readHash m tab ((nextIndex tab)^[j] index) ≠ HASH_EMPTY ∧
      (readHash m tab ((nextIndex tab)^[j] index) = HASH_KILLED ∨
        ¬ (readHash m tab ((nextIndex tab)^[j] index) = hash ∧
          readKey th m tab (toInt32 (i + j)) = key))) :
    ∃ j, j ≤ k ∧
      reserveLoop th m tab key hash n i index = some ((nextIndex tab)^[j] index) ∧
      readHash m tab ((nextIndex tab)^[j] index) = HASH_KILLED ∧
      ∀ j', j' < j → readHash m tab ((nextIndex tab)^[j'] index) ≠ HASH_KILLED := by
  induction n generalizing i index k with
  | zero => exact absurd hk (Nat.not_lt_zero k)
  | succ n ih =>
    rw [reserveLoop]
    by_cases hK : readHash m tab index = HASH_KILLED
    · have hEK : readHash m tab index = HASH_EMPTY ∨ readHash m tab index = HASH_KILLED :=
        Or.inr hK
      rw [if_pos hEK]
      exact ⟨0, Nat.zero_le k, rfl, hK, fun j' hj' => absurd hj' (Nat.not_lt_zero j')⟩
    · cases k with
      | zero => exact absurd hkilled hK
      | succ k =>
        have h0 := hbefore 0 (Nat.succ_pos k)
        have hE : readHash m tab index ≠ HASH_EMPTY := h0.1
        have hM : ¬ (readHash m tab index = hash ∧ readKey th m tab (toInt32 i) = key) := by
          cases h0.2 with
          | inl h => exact absurd h hK
          | inr h => exact h
        have hEK : ¬ (readHash m tab index = HASH_EMPTY ∨ readHash m tab index = HASH_KILLED) := by
          intro h
          cases h with
          | inl h => exact hE h
          | inr h => exact hK h
        rw [if_neg hEK, if_neg hM]
        rw [Function.iterate_succ_apply] at hkilled
        obtain ⟨j, hj, hres, hjk, hfirst⟩ := ih (i + 1) (nextIndex tab index) k
          (Nat.lt_of_succ_lt_succ hk) hkilled (by
            intro j hj
            have h := hbefore (j + 1) (Nat.succ_lt_succ hj)
            have hij : i + (j + 1) = i + 1 + j := by omega
            rw [Function.iterate_succ_apply, hij] at h
            exact h)
        refine ⟨j + 1, Nat.succ_le_succ hj, ?_, ?_, ?_⟩
        · rw [Function.iterate_succ_apply]
          exact hres
        · rw [Function.iterate_succ_apply]
          exact hjk
        · intro j' hj'
          cases j' with
          | zero => exact hK
          | succ j' =>
            rw [Function.iterate_succ_apply]
            exact hfirst j' (Nat.lt_of_succ_lt_succ hj')

/-- After a successful `erase`, the loop of `reserve` for the same key and hash returns
the first tombstone of the probe order, which lies at or before the erased slot. -/
theorem reserveLoop_after_erase (th : TableHash) (m : Memory) (tab : Table) (key hash : Nat)
    (h0 : 0 < tab.capacity) (h1 : tab.capacity ≤ 2 ^ 31) (hml : tab.maxLookups < 2 ^ 31)
    (hsep : tab.keys + th.keySize * tab.maxLookups ≤ tab.hashes ∨
      tab.hashes + 8 * tab.capacity ≤ tab.keys)
    (hs : (erase th m tab key hash).1 ≠ -1) :
    ∃ j k, j ≤ k ∧ k < tab.maxLookups ∧
      probeAt tab hash k = (erase th m tab key hash).1 ∧
      findStops th m tab key hash k ∧
      (∀ i, i < k → ¬ findStops th m tab key hash i) ∧
      reserveLoop th (erase th m tab key hash).2 tab key hash tab.maxLookups 0
        (indexForHash tab hash) = some (probeAt tab hash j) ∧
      readHash (erase th m tab key hash).2 tab (probeAt tab hash j) = HASH_KILLED ∧
      ((∀ i, i < k → readHash m tab (probeAt tab hash i) ≠ HASH_KILLED) →
        probeAt tab hash j = (erase th m tab key hash).1) := by
  have hmem := eraseLoop_snd th m tab key hash tab.maxLookups 0 (indexForHash tab hash) hs
  have hfst := eraseLoop_fst th m tab key hash tab.maxLookups 0 (indexForHash tab hash)
  unfold erase at hs ⊢
  generalize (eraseLoop th m tab key hash tab.maxLookups 0 (indexForHash tab hash)).1 = s
    at hmem hfst hs ⊢
  generalize (eraseLoop th m tab key hash tab.maxLookups 0 (indexForHash tab hash)).2 = m1
    at hmem ⊢
  obtain ⟨k, hk, hit, hmatch, hne, hbefore⟩ :=
    findLoop_hit th m tab key hash s hs tab.maxLookups 0 (indexForHash tab hash) hfst.symm
  rw [← probeAt_eq_iterate] at hit
  obtain ⟨ns, hns, hsn⟩ := probeAt_range tab hash k h0 h1
  rw [hit] at hsn
  subst hsn
  subst hmem
  have hkilled : readHash (store m (elemAddr tab.hashes 8 (ns : Int)) 8 HASH_KILLED) tab
      ((nextIndex tab)^[k] (indexForHash tab hash)) = HASH_KILLED := by
    rw [← probeAt_eq_iterate, hit]
    exact readHash_store_same m tab _
  have hframe : ∀ j, j < k →
      readHash (store m (elemAddr tab.hashes 8 (ns : Int)) 8 HASH_KILLED) tab
          (probeAt tab hash j) = HASH_KILLED ∨
        (probeAt tab hash j ≠ (ns : Int) ∧
          readHash (store m (elemAddr tab.hashes 8 (ns : Int)) 8 HASH_KILLED) tab
            (probeAt tab hash j) = readHash m tab (probeAt tab hash j)) := by
    intro j _
    obtain ⟨nj, _, hjn⟩ := probeAt_range tab hash j h0 h1
    rw [hjn]
    by_cases hjs : nj = ns
    · left
      rw [hjs]
      exact readHash_store_same m tab _
    · right
      exact ⟨fun h => hjs (Int.ofNat.inj h), readHash_store_other m tab ns nj _ hjs⟩
  obtain ⟨j, hj, hres, hjk, hfirst⟩ := reserveLoop_first_killed th
    (store m (elemAddr tab.hashes 8 (ns : Int)) 8 HASH_KILLED) tab key hash tab.maxLookups 0
    (indexForHash tab hash) k hk hkilled (by
      intro j hj
      have hb := hbefore j hj
      rw [← probeAt_eq_iterate] at hb ⊢
      cases hframe j hj with
      | inl h =>
        refine ⟨?_, Or.inl h⟩
        rw [h]
        decide
      | inr h =>
        rw [h.2, Nat.zero_add, readKey_store_hash th m tab ns j _ hns (by omega) hml hsep]
        rw [Nat.zero_add] at hb
        exact ⟨hb.1, Or.inr hb.2⟩)
  rw [← probeAt_eq_iterate] at hres hjk
  refine ⟨j, k, hj, hk, hit, ?_, ?_, hres, hjk, ?_⟩
  · unfold findStops
    rw [hit]
    rw [Nat.zero_add] at hmatch
    exact Or.inr hmatch
  · intro i hi hstop
    unfold findStops at hstop
    have hb := hbefore i hi
    rw [← probeAt_eq_iterate, Nat.zero_add] at hb
    cases hstop with
    | inl h => exact hb.1 h
    | inr h => exact hb.2 h
  · intro hno
    by_cases hjeq : j = k
    · rw [hjeq]
      exact hit
    · have hjlt : j < k := by omega
      cases hframe j hjlt with
      | inl h =>
        obtain ⟨nj, _, hjn⟩ := probeAt_range tab hash j h0 h1
        rw [hjn] at h ⊢
        by_cases hjs : nj = ns
        · rw [hjs]
        · exfalso
          rw [readHash_store_other m tab ns nj _ hjs, ← hjn] at h
          exact hno j hjlt h
      | inr h =>
        exfalso
        rw [h.2] at hjk
        exact hno j hjlt hjk

theorem Book.allocateLoop_eq_attempts (size : Nat) (n : Nat) (b : Book)
    (hoff : ∀ p ∈ b.pages, p.offset ≤ b.pageSize)
    (hf : b.freePageIndex < b.totalPages) (hprod : b.pageSize * b.totalPages < 2 ^ 32)
    (hps : b.pageSize < 2 ^ 31) (htp : b.totalPages < 2 ^ 32) (htf : b.totalFree < 2 ^ 32)
    (hsz : size ≤ b.pageSize) (hsf : size ≤ b.totalFree) :
    Book.allocateLoop size n b = Book.allocateAttempts size n b := by
  induction n generalizing b with
  | zero => rfl
  | succ n ih =>
    have hacc := Page.allocate_accepts (b.page b.freePageIndex) size b.pageSize
      (Book.page_offset_le_of b hoff _) hsz hps
    rw [Book.allocateLoop, Book.allocateAttempts]
    by_cases ha : (b.page b.freePageIndex).offset + size ≤ b.pageSize
    · rw [if_pos (hacc.1.2 ha), if_pos ha]
      have hmul : b.freePageIndex * b.pageSize % 2 ^ 32 = b.freePageIndex * b.pageSize := by
        apply Nat.mod_eq_of_lt
        have := Nat.mul_le_mul_right b.pageSize (Nat.le_of_lt hf)
        rw [Nat.mul_comm b.totalPages] at this
        omega
      have hsub : sub32 b.totalFree size = b.totalFree - size := by
        unfold sub32
        omega
      rw [hmul, hacc.2 ha, hsub]
    · have hnot : ¬ ((b.page b.freePageIndex).allocate size b.pageSize).1 ≠ NOT_ALLOCATED :=
        fun h => ha (hacc.1.1 h)
      rw [if_neg hnot, if_neg ha, Book.set_refused b size hoff hps hnot,
        Book.rotate_step _ _ hf htp]
      exact ih { b with freePageIndex := (b.freePageIndex + 1) % b.totalPages } hoff
        (Nat.mod_lt _ (by omega)) hprod hps htp htf hsz hsf

theorem Book.allocate_eq_ref (b : Book) (size : Nat)
    (hwf : b.wellFormed ∨ b.totalPages = 0) (hr : b.inRange) :
    b.allocate size = b.allocateRef size b.totalPages := by
  unfold Book.allocate Book.allocateRef
  by_cases h1 : size > b.pageSize
  · rw [if_pos h1, if_pos (Or.inl h1)]
  · by_cases h2 : size > b.totalFree
    · rw [if_neg h1, if_pos h2, if_pos (Or.inr h2)]
    · have h12 : ¬ (size > b.pageSize ∨ size > b.totalFree) := by
        intro h
        cases h with
        | inl h => exact h1 h
        | inr h => exact h2 h
      rw [if_neg h1, if_neg h2, if_neg h12]
      cases hwf with
      | inl hwf =>
        obtain ⟨_, hoff, hf, hts, hlt, hps⟩ := hwf
        exact Book.allocateLoop_eq_attempts size b.totalPages b hoff hf (by omega) hps hr.1 hr.2
          (by omega) (by omega)
      | inr h0 =>
        rw [h0]
        rfl

theorem gofs_add (b : Book) (x : Nat) (hx : x < 2 ^ 32) : b.gofs (b.data + x) = x := by
  unfold Book.gofs toUInt32
  have h : ((b.data + x : Nat) : Int) - (b.data : Int) = (x : Int) := by
    push_cast
    omega
  rw [h]
  omega

theorem Book.page_invariant_of (b : Book) (hlen : b.pages.length = b.totalPages)
    (hinv : ∀ p ∈ b.pages, Page.invariant p b.pageSize) (i : Nat) (hi : i < b.totalPages) :
    Page.invariant (b.page i) b.pageSize := by
  unfold Book.page
  rw [List.getD_eq_getElem _ _ (by omega)]
  exact hinv _ (List.getElem_mem (by omega))

/-- Freeing the block that `Book::allocate` just returned gives the book back, up to
the rotation cursor, which stays at the page that served the block. -/
theorem Book.free_after_allocate (b : Book) (size : Nat) (hwf : b.wellFormed)
    (hr : b.inRange) (hinv : ∀ p ∈ b.pages, Page.invariant p b.pageSize) (hsize : 0 < size)
    (h : (b.allocate size).1 ≠ 0) :
    (b.allocate size).1 = b.data + (b.allocate size).2.freePageIndex * b.pageSize
      + (b.page (b.allocate size).2.freePageIndex).offset ∧
    (b.allocate size).2.gofs (b.allocate size).1 / b.pageSize
      = (b.allocate size).2.freePageIndex ∧
    (b.allocate size).2.gofs (b.allocate size).1 % b.pageSize
      = (b.page (b.allocate size).2.freePageIndex).offset ∧
    (b.allocate size).2.free (b.allocate size).1 size
      = { b with freePageIndex := (b.allocate size).2.freePageIndex } := by
  rw [Book.allocate_eq_spec b size (Or.inl hwf) hr] at h ⊢
  obtain ⟨hlen, hoff, hf, hts, hlt, hps⟩ := hwf
  unfold Book.allocateSpec at h ⊢
  by_cases h12 : size > b.pageSize ∨ size > b.totalFree
  · rw [if_pos h12] at h
    exact absurd rfl h
  · rw [if_neg h12] at h ⊢
    cases hfind : b.rotation.find? (b.accepts size) with
    | none =>
      rw [hfind] at h
      exact absurd rfl h
    | some i =>
      dsimp only
      have hi : i < b.totalPages :=
        (Book.mem_rotation b (Or.inl hf) i).1 (List.mem_of_find?_eq_some hfind)
      have hacc : (b.page i).offset + size ≤ b.pageSize := by
        have := List.find?_some hfind
        unfold Book.accepts at this
        exact of_decide_eq_true this
      have hpa := Page.allocate_accepts (b.page i) size b.pageSize
        (Book.page_offset_le_of b hoff i) (by omega) hps
      have hmul : (i + 1) * b.pageSize ≤ b.totalPages * b.pageSize :=
        Nat.mul_le_mul_right _ (by omega)
      rw [Nat.succ_mul, Nat.mul_comm b.totalPages] at hmul
      have hofs : (b.page i).offset < b.pageSize :=
        Nat.lt_of_lt_of_le (Nat.lt_add_of_pos_right hsize) hacc
      have hps0 : 0 < b.pageSize := by omega
      have hlt32 : i * b.pageSize + (b.page i).offset < 2 ^ 32 := by omega
      have hg : Book.gofs
          { b with pages := b.pages.set i ((b.page i).allocate size b.pageSize).2,
                   totalFree := b.totalFree - size, freePageIndex := i }
          (b.data + i * b.pageSize + (b.page i).offset)
          = i * b.pageSize + (b.page i).offset := by
        rw [Nat.add_assoc]
        exact gofs_add _ _ hlt32
      have hdiv : (i * b.pageSize + (b.page i).offset) / b.pageSize = i := by
        rw [Nat.mul_comm, Nat.mul_add_div hps0, Nat.div_eq_of_lt hofs, Nat.add_zero]
      have hmod : (i * b.pageSize + (b.page i).offset) % b.pageSize = (b.page i).offset := by
        rw [Nat.mul_comm, Nat.mul_add_mod, Nat.mod_eq_of_lt hofs]
      refine ⟨rfl, ?_, ?_, ?_⟩
      · rw [hg, hdiv]
      · rw [hg, hmod]
      · unfold Book.free
        dsimp only
        rw [hg, hdiv, hmod]
        have hpage : Book.page
            { b with pages := b.pages.set i ((b.page i).allocate size b.pageSize).2,
                     totalFree := b.totalFree - size, freePageIndex := i } i
            = ((b.page i).allocate size b.pageSize).2 := by
          unfold Book.page
          dsimp only
          rw [List.getD_eq_getElem _ _ (by rw [List.length_set]; omega),
            List.getElem_set_self]
        have hfree := Page.free_allocate (b.page i) size b.pageSize
          (Book.page_invariant_of b hlen hinv i hi) (by omega) (by omega) (hpa.1.2 hacc)
        rw [hpa.2 hacc] at hfree
        rw [hpage, hfree, List.set_set, Book.set_page_self]
        have htf : add32 (b.totalFree - size) size = b.totalFree := by
          unfold add32
          have := hr.2
          omega
        rw [htf]

theorem Page.allocate_not_allocated (p : Page) (size pageSize : Nat)
    (hoff : p.offset < NOT_ALLOCATED)
    (hr : ¬ (p.allocate size pageSize).1 ≠ NOT_ALLOCATED) :
    (p.allocate size pageSize).2 = p := by
  unfold Page.allocate at hr ⊢
  split_ifs at hr ⊢ with h
  · rfl
  · exfalso
    apply hr
    simp only [add32, sub32, NOT_ALLOCATED] at hoff ⊢
    omega

theorem Book.page_offset_lt_of (b : Book) (hoff : ∀ p ∈ b.pages, p.offset < NOT_ALLOCATED)
    (i : Nat) : (b.page i).offset < NOT_ALLOCATED := by
  unfold Book.page
  by_cases hi : i < b.pages.length
  · rw [List.getD_eq_getElem _ _ hi]
    exact hoff _ (List.getElem_mem hi)
  · rw [List.getD_eq_default _ _ (by omega)]
    decide

/-- When the loop of `Book::allocate` returns null, every page is as it was and the
rotation cursor has moved `n` pages on. -/
theorem Book.allocateLoop_null (size : Nat) (n : Nat) (b : Book)
    (hf : b.freePageIndex < b.totalPages) (htp : b.totalPages < 2 ^ 32)
    (hoff : ∀ p ∈ b.pages, p.offset < NOT_ALLOCATED)
    (hdata : 0 < b.data) (h : (Book.allocateLoop size n b).1 = 0) :
    Book.allocateLoop size n b
      = (0, { b with freePageIndex := (b.freePageIndex + n) % b.totalPages }) := by
  induction n generalizing b with
  | zero =>
    rw [Book.allocateLoop, Nat.add_zero, Nat.mod_eq_of_lt hf]
  | succ n ih =>
    rw [Book.allocateLoop] at h ⊢
    by_cases hr : ((b.page b.freePageIndex).allocate size b.pageSize).1 ≠ NOT_ALLOCATED
    · rw [if_pos hr] at h
      dsimp only at h
      exfalso
      omega
    · have hset : b.pages.set b.freePageIndex
          ((b.page b.freePageIndex).allocate size b.pageSize).2 = b.pages := by
        rw [Page.allocate_not_allocated _ size b.pageSize (Book.page_offset_lt_of b hoff _)
          hr]
        exact Book.set_page_self b _
      rw [if_neg hr, hset, Book.rotate_step _ _ hf htp] at h ⊢
      rw [ih { b with freePageIndex := (b.freePageIndex + 1) % b.totalPages }
        (Nat.mod_lt _ (by omega)) htp hoff hdata h]
      dsimp only
      have hend : ((b.freePageIndex + 1) % b.totalPages + n) % b.totalPages =
          (b.freePageIndex + (n + 1)) % b.totalPages := by
        rw [Nat.mod_add_mod]
        congr 1
        omega
      rw [hend]

theorem Book.allocateLoop_cursor (size : Nat) (n : Nat) (b : Book)
    (hf : b.freePageIndex < b.totalPages) (htp : b.totalPages < 2 ^ 32) :
    (Book.allocateLoop size n b).2.freePageIndex < b.totalPages ∧
      (Book.allocateLoop size n b).2.totalPages = b.totalPages := by
  induction n generalizing b with
  | zero => exact ⟨hf, rfl⟩
  | succ n ih =>
    rw [Book.allocateLoop]
    by_cases hr : ((b.page b.freePageIndex).allocate size b.pageSize).1 ≠ NOT_ALLOCATED
    · rw [if_pos hr]
      exact ⟨hf, rfl⟩
    · rw [if_neg hr, Book.rotate_step _ _ hf htp]
      have hpos : 0 < b.totalPages := by omega
      exact ih _ (Nat.mod_lt _ hpos) htp

end das

namespace das

/-! ## The claims, fourth group -/

/-- C31 (for string keys `find`, `reserve` and `erase` compare keys as
`KeyCompare<char *>` does, by content), evaluated on `oneEntryTable` with
`stringKeyMem`: slot 0 stores the key 8192, a pointer to "ab", and the searched key is
8208, a pointer to another copy of "ab", with the same hash 128. `KeyCompare<char *>`
finds the two keys equal, but `find` returns `-1`, `erase` returns `-1` and `reserve`
returns the empty slot 1: the loops compare the pointers with `==`. The pointer 8192
itself is found in slot 0. -/
theorem string_keys_are_compared_by_pointer :
    readKey th88 stringKeyMem oneEntryTable 0 = 8192 ∧
    KeyCompare.charPtr stringKeyMem 8224 16 8192 8208 = some true ∧
    find th88 stringKeyMem oneEntryTable 8208 128 = -1 ∧
    (erase th88 stringKeyMem oneEntryTable 8208 128).1 = -1 ∧
    (reserve th88 1 1 ⟨stringKeyMem, 0, okHeap, []⟩ oneEntryTable 8208 128).map
      (fun r => r.1) = some 1 ∧
    find th88 stringKeyMem oneEntryTable 8192 128 = 0 := by
  decide

/-- With key slots that do not overlap the hash slots, `reserve` after a successful
`erase` recycles a tombstone: let `erase` return
the slot `s ≠ -1` on a table whose capacity lies between 1 and `2^31` and whose first
`maxLookups` key slots do not overlap its hash slots. Then `s` is the slot probed in
the round `k` in which the search stops, and `reserve` for the same key and hash on the
memory `erase` leaves returns, without growing the table, the slot probed in a round
`j ≤ k`, whose hash is `HASH_KILLED`; when no tombstone precedes `s` in the probe order
that slot is `s` itself. -/
theorem reserve_after_erase_recycles_tombstone (th : TableHash) (growFuel fuel : Nat)
    (ctx : Context) (tab : Table) (key hash : Nat)
    (h0 : 0 < tab.capacity) (h1 : tab.capacity ≤ 2 ^ 31) (hml : tab.maxLookups < 2 ^ 31)
    (hsep : tab.keys + th.keySize * tab.maxLookups ≤ tab.hashes ∨
      tab.hashes + 8 * tab.capacity ≤ tab.keys)
    (hs : (erase th ctx.mem tab key hash).1 ≠ -1) :
    ∃ j k, j ≤ k ∧ k < tab.maxLookups ∧
      probeAt tab hash k = (erase th ctx.mem tab key hash).1 ∧
      findStops th ctx.mem tab key hash k ∧
      (∀ i, i < k → ¬ findStops th ctx.mem tab key hash i) ∧
      reserve th growFuel (fuel + 1) { ctx with mem := (erase th ctx.mem tab key hash).2 }
          tab key hash
        = some (probeAt tab hash j, tab,
            { ctx with mem := (erase th ctx.mem tab key hash).2 }) ∧
      readHash (erase th ctx.mem tab key hash).2 tab (probeAt tab hash j) = HASH_KILLED ∧
      ((∀ i, i < k → readHash ctx.mem tab (probeAt tab hash i) ≠ HASH_KILLED) →
        probeAt tab hash j = (erase th ctx.mem tab key hash).1) := by
  obtain ⟨j, k, hj, hk, hit, hstop, hfirst, hres, hkilled, hsame⟩ :=
    reserveLoop_after_erase th ctx.mem tab key hash h0 h1 hml hsep hs
  exact ⟨j, k, hj, hk, hit, hstop, hfirst, reserve_of_probe th growFuel fuel _ tab key hash _ hres,
    hkilled, hsame⟩

/-- Scenario S3 on `oneEntryTable`, whose regions do not overlap: the key 128 is erased
from slot 0 and `reserve` for key 128 then returns slot 0 again. -/
theorem reserve_after_erase_recycles_tombstone_witness :
    (erase th88 oneEntryMem oneEntryTable 128 128).1 = 0 ∧
    (reserve th88 1 1 ⟨(erase th88 oneEntryMem oneEntryTable 128 128).2, 0, okHeap, []⟩
      oneEntryTable 128 128).map (fun r => (r.1, r.2.1)) = some (0, oneEntryTable) ∧
    ∃ j k, j ≤ k ∧ k < oneEntryTable.maxLookups ∧
      probeAt oneEntryTable 128 k = (erase th88 oneEntryMem oneEntryTable 128 128).1 ∧
      findStops th88 oneEntryMem oneEntryTable 128 128 k ∧
      (∀ i, i < k → ¬ findStops th88 oneEntryMem oneEntryTable 128 128 i) ∧
      reserve th88 1 (0 + 1)
          { (⟨oneEntryMem, 0, okHeap, []⟩ : Context) with
            mem := (erase th88 oneEntryMem oneEntryTable 128 128).2 }
          oneEntryTable 128 128
        = some (probeAt oneEntryTable 128 j, oneEntryTable,
            { (⟨oneEntryMem, 0, okHeap, []⟩ : Context) with
              mem := (erase th88 oneEntryMem oneEntryTable 128 128).2 }) ∧
      readHash (erase th88 oneEntryMem oneEntryTable 128 128).2 oneEntryTable
        (probeAt oneEntryTable 128 j) = HASH_KILLED ∧
      ((∀ i, i < k → readHash oneEntryMem oneEntryTable (probeAt oneEntryTable 128 i)
          ≠ HASH_KILLED) →
        probeAt oneEntryTable 128 j = (erase th88 oneEntryMem oneEntryTable 128 128).1) :=
  ⟨by decide, by decide,
    reserve_after_erase_recycles_tombstone th88 1 0 ⟨oneEntryMem, 0, okHeap, []⟩ oneEntryTable
      128 128 (by decide) (by decide) (by decide) (by decide) (by decide)⟩

/-- C32 (`reserve` after a successful `erase` returns a slot at or before the erased
one whose hash is `HASH_KILLED` or `HASH_EMPTY`), evaluated on `overlapTable`, the
table `grow` lays out for 16 byte keys with capacity 64 (`hashes = keys + 64`), for the
key `overlapKey` with hash 60. The probe order is 60, 61, 62, 63, 0, 1. `erase` stops
in round 5 at slot 1 (hash 60, and `pKeys[5]`, whose bytes are the hash slots 2 and 3,
is the key) and writes `HASH_KILLED` into hash slot 1. Those 8 bytes are the high half
of `pKeys[4]`, which thereby becomes the key, so `reserve` stops in round 4 at slot 0
and returns it: a slot whose hash is 60, a live entry. -/
theorem reserve_after_erase_returns_live_slot :
    overlapTable.hashes = overlapTable.keys + 64 ∧
    readHash overlapMem overlapTable 0 = 60 ∧
    readHash overlapMem overlapTable 1 = 60 ∧
    readKey th816 overlapMem overlapTable 4 = 60 + 2 ^ 64 * 60 ∧
    readKey th816 overlapMem overlapTable 5 = overlapKey ∧
    (erase th816 overlapMem overlapTable overlapKey 60).1 = 1 ∧
    readHash (erase th816 overlapMem overlapTable overlapKey 60).2 overlapTable 1
      = HASH_KILLED ∧
    readKey th816 (erase th816 overlapMem overlapTable overlapKey 60).2 overlapTable 4
      = overlapKey ∧
    (reserve th816 1 1 ⟨(erase th816 overlapMem overlapTable overlapKey 60).2, 0, okHeap, []⟩
      overlapTable overlapKey 60).map (fun r => (r.1, r.2.1)) = some (0, overlapTable) ∧
    readHash (erase th816 overlapMem overlapTable overlapKey 60).2 overlapTable 0 = 60 := by
  decide

/-- C33 (`Page::allocate` without wrap-around): when `offset + size` does not exceed
`2^32 − 1`, then if `offset + size ≤ pageSize` the call returns the previous `offset`
and adds `size` to `offset` and, in `uint32_t`, to `total` (exactly so when
`total ≤ offset`); otherwise it returns `NOT_ALLOCATED = 0xFFFFFFFF` and leaves the
page as it was. -/
theorem page_allocate_without_wrap (p : Page) (size pageSize : Nat)
    (hnw : p.offset + size ≤ 2 ^ 32 - 1) :
    (p.offset + size ≤ pageSize →
      p.allocate size pageSize = (p.offset, ⟨p.offset + size, add32 p.total size⟩)) ∧
    (p.total ≤ p.offset → add32 p.total size = p.total + size) ∧
    (p.offset + size > pageSize → p.allocate size pageSize = (NOT_ALLOCATED, p)) ∧
    NOT_ALLOCATED = 0xFFFFFFFF := by
  have hadd : add32 p.offset size = p.offset + size := add32_of_lt _ _ (by omega)
  refine ⟨fun hfit => ?_, fun hle => add32_of_lt _ _ (by omega), fun hgt => ?_, rfl⟩
  · unfold Page.allocate
    rw [hadd, if_neg (by omega)]
    have hloc : sub32 (p.offset + size) size = p.offset := by
      unfold sub32
      omega
    rw [hloc]
  · unfold Page.allocate
    rw [hadd, if_pos hgt]

/-- Witness for C33: a page of 4096 bytes with cursor 32 accepts 64 bytes at 32 and
refuses 4096 bytes. -/
theorem page_allocate_without_wrap_witness :
    (32 : Nat) + 64 ≤ 2 ^ 32 - 1 ∧
    (⟨32, 32⟩ : Page).allocate 64 4096 = (32, ⟨96, 96⟩) ∧
    (⟨32, 32⟩ : Page).allocate 4096 4096 = (NOT_ALLOCATED, ⟨32, 32⟩) :=
  ⟨by decide,
    (page_allocate_without_wrap ⟨32, 32⟩ 64 4096 (by decide)).1 (by decide),
    by decide⟩

/-- C34, as stated (`offset` is decreased by `size` exactly when `loc + size = offset`,
an interior free leaves `offset` unchanged), fails when the page's `total` becomes 0.
On a page of 4096 bytes the blocks A, B, C of 16 bytes are allocated at 0, 16 and 32,
then B and C are freed: the page has `offset = 32`, `total = 16` and A is live. Freeing
A is an interior free (`0 + 16 ≠ 32`), and it sets `offset` to 0. -/
theorem page_interior_free_resets_offset :
    PageRun.run 4096 PageRun.fresh
      [.allocate 16, .allocate 16, .allocate 16, .free 16 16, .free 32 16]
      = ⟨⟨32, 16⟩, [(0, 16)]⟩ ∧
    0 + 16 ≠ 32 ∧
    (⟨32, 16⟩ : Page).free 0 16 = ⟨0, 0⟩ := by
  decide

/-- C34, amended: for 32-bit fields and arguments, `size ≤ total`, and a page with
`total ≤ offset` (or a block with `loc + size < 2^32`), `Page::free(loc, size)`
decreases `total` by `size`; when the resulting `total` is 0 the resulting `offset` is
0; otherwise `offset` is decreased by `size` if `loc + size = offset` and is left
unchanged if not (an interior free). -/
theorem page_free_effect (p : Page) (loc size : Nat)
    (hoff : p.offset < 2 ^ 32) (htot : p.total < 2 ^ 32) (hloc : loc < 2 ^ 32)
    (hsize : size ≤ p.total) (hnw : loc + size < 2 ^ 32 ∨ p.total ≤ p.offset) :
    (p.free loc size).total = p.total - size ∧
    ((p.free loc size).total = 0 → (p.free loc size).offset = 0) ∧
    ((p.free loc size).total ≠ 0 → loc + size = p.offset →
      (p.free loc size).offset = p.offset - size) ∧
    ((p.free loc size).total ≠ 0 → loc + size ≠ p.offset →
      (p.free loc size).offset = p.offset) := by
  have htotal : sub32 p.total size = p.total - size := by
    unfold sub32
    omega
  unfold Page.free
  dsimp only
  rw [htotal]
  by_cases h0 : p.total - size = 0
  · rw [if_pos h0]
    exact ⟨rfl, fun _ => rfl, fun h => absurd h0 h, fun h => absurd h0 h⟩
  · rw [if_neg h0]
    refine ⟨rfl, fun h => absurd h h0, fun _ heq => ?_, fun _ hne => ?_⟩
    · have hsum : add32 loc size = p.offset := by
        unfold add32
        omega
      dsimp only
      rw [if_pos hsum]
      unfold sub32
      omega
    · have hsum : ¬ add32 loc size = p.offset := by
        unfold add32
        omega
      dsimp only
      rw [if_neg hsum]

/-- Witness for C34: on a page with cursor 48 and 32 live bytes, freeing the top block
(16 bytes at 32) moves the cursor to 32, and freeing an interior block (16 bytes at 0)
leaves the cursor at 48. -/
theorem page_free_effect_witness :
    (⟨48, 32⟩ : Page).free 32 16 = ⟨32, 16⟩ ∧
    (⟨48, 32⟩ : Page).free 0 16 = ⟨48, 16⟩ ∧
    (⟨32, 16⟩ : Page).free 16 16 = ⟨0, 0⟩ ∧
    ((⟨48, 32⟩ : Page).free 32 16).total = 32 - 16 :=
  ⟨by decide, by decide, by decide,
    (page_free_effect ⟨48, 32⟩ 32 16 (by decide) (by decide) (by decide) (by decide)
      (by decide)).1⟩

/-- C35, as stated (`Book::allocate` makes `pageSize`-many page attempts), fails. On
`tinyPagesBook` (17 pages of 16 bytes, only the last one free) `Book::allocate(16)`
returns the block of page 16, which is its 17th attempt, while a reference allocator
with `pageSize = 16` attempts returns null. On `threePageBook` (3 pages of 64 bytes)
a request of 32 bytes is refused by every page: `Book::allocate` leaves the rotation
cursor at page 0, a reference allocator with 64 attempts leaves it at page 1. -/
theorem book_allocate_differs_from_page_size_attempts :
    (tinyPagesBook.allocate 16).1 = 65536 + 16 * 16 ∧
    (tinyPagesBook.allocateRef 16 tinyPagesBook.pageSize).1 = 0 ∧
    threePageBook.allocate 32 = (0, threePageBook) ∧
    threePageBook.allocateRef 32 threePageBook.pageSize
      = (0, { threePageBook with freePageIndex := 1 }) := by
  decide

/-- C35, amended: `Book::allocate` makes `totalPages`-many page attempts starting at
`freePageIndex` and rotating modulo `totalPages` before it gives up: for every
well-formed book (or one without pages) with 32-bit fields, the result of
`Book::allocate(size)` equals the result of a reference allocator that performs
exactly `totalPages` attempts in that rotation order. -/
theorem book_allocate_makes_total_pages_attempts (b : Book) (size : Nat)
    (hwf : b.wellFormed ∨ b.totalPages = 0) (hr : b.inRange) :
    b.allocate size = b.allocateRef size b.totalPages :=
  Book.allocate_eq_ref b size hwf hr

/-- Witness for C35: `tinyPagesBook` and a request of 16 bytes. -/
theorem book_allocate_makes_total_pages_attempts_witness :
    tinyPagesBook.wellFormed ∧ tinyPagesBook.inRange ∧
    tinyPagesBook.allocate 16 = tinyPagesBook.allocateRef 16 tinyPagesBook.totalPages ∧
    (tinyPagesBook.allocateRef 16 tinyPagesBook.totalPages).1 = 65536 + 16 * 16 :=
  have hwf : tinyPagesBook.wellFormed := by
    unfold Book.wellFormed
    decide
  have hr : tinyPagesBook.inRange := by
    unfold Book.inRange
    decide
  ⟨hwf, hr, book_allocate_makes_total_pages_attempts tinyPagesBook 16 (Or.inl hwf) hr,
    by decide⟩

/-- C36 (Book allocate/free round trip): for a well-formed book with 32-bit fields whose
pages satisfy the page invariant and every `size > 0`, if `Book::allocate(size)`
returns a non-null `ptr`, then `ptr` is `data + i × pageSize + offset` for the page `i`
that served the block (the rotation cursor afterwards) and its previous `offset`,
`Book::free(ptr, size)` derives the same `i` and `offset` from `ptr − data`, and after
it the book is what it was before the allocation, up to the rotation cursor: every
page and `totalFree` have their previous values. The page size is positive because a
block of `size > 0` fitted. -/
theorem book_free_after_allocate_restores (b : Book) (size : Nat) (hwf : b.wellFormed)
    (hr : b.inRange) (hinv : ∀ p ∈ b.pages, Page.invariant p b.pageSize) (hsize : 0 < size)
    (h : (b.allocate size).1 ≠ 0) :
    (b.allocate size).1 = b.data + (b.allocate size).2.freePageIndex * b.pageSize
      + (b.page (b.allocate size).2.freePageIndex).offset ∧
    (b.allocate size).2.gofs (b.allocate size).1 / b.pageSize
      = (b.allocate size).2.freePageIndex ∧
    (b.allocate size).2.gofs (b.allocate size).1 % b.pageSize
      = (b.page (b.allocate size).2.freePageIndex).offset ∧
    ((b.allocate size).2.free (b.allocate size).1 size).pages = b.pages ∧
    ((b.allocate size).2.free (b.allocate size).1 size).totalFree = b.totalFree := by
  obtain ⟨h1, h2, h3, h4⟩ := Book.free_after_allocate b size hwf hr hinv hsize h
  refine ⟨h1, h2, h3, ?_, ?_⟩
  · rw [h4]
  · rw [h4]

/-- Witness for C36: on `rotBook` a block of 200 bytes comes from page 1 at offset 100
and freeing it gives the pages and `totalFree` back. -/
theorem book_free_after_allocate_restores_witness :
    rotBook.wellFormed ∧ rotBook.inRange ∧
    (rotBook.allocate 200).1 = 65536 + 1 * 4096 + 100 ∧
    (rotBook.allocate 200).2.gofs (rotBook.allocate 200).1 / rotBook.pageSize = 1 ∧
    ((rotBook.allocate 200).2.free (rotBook.allocate 200).1 200).pages = rotBook.pages ∧
    ((rotBook.allocate 200).2.free (rotBook.allocate 200).1 200).totalFree
      = rotBook.totalFree :=
  have hwf : rotBook.wellFormed := by
    unfold Book.wellFormed
    decide
  have hr : rotBook.inRange := by
    unfold Book.inRange
    decide
  have hinv : ∀ p ∈ rotBook.pages, Page.invariant p rotBook.pageSize := by
    unfold Page.invariant
    decide
  have key := book_free_after_allocate_restores rotBook 200 hwf hr hinv (by decide) (by decide)
  ⟨hwf, hr, by decide, by decide, key.2.2.2.1, key.2.2.2.2⟩

/-- C37 (a failed `Book::allocate` is a no-op): for a book with
`freePageIndex < totalPages` (or `totalPages = 0`), a 32-bit `totalPages`, a non-null
slab and no page cursor equal to `0xFFFFFFFF`, if `Book::allocate` returns null then
the book is exactly what it was before the call (`totalFree`, `freePageIndex`, every
page); and `freePageIndex < totalPages` is preserved by every call. -/
theorem book_failed_allocate_is_noop (b : Book) (size : Nat)
    (hf : b.freePageIndex < b.totalPages ∨ b.totalPages = 0) (htp : b.totalPages < 2 ^ 32)
    (hoff : ∀ p ∈ b.pages, p.offset < NOT_ALLOCATED) (hdata : 0 < b.data) :
    ((b.allocate size).1 = 0 → (b.allocate size).2 = b) ∧
    (b.freePageIndex < b.totalPages →
      (b.allocate size).2.freePageIndex < (b.allocate size).2.totalPages) := by
  unfold Book.allocate
  by_cases h1 : size > b.pageSize
  · rw [if_pos h1]
    exact ⟨fun _ => rfl, fun h => h⟩
  · by_cases h2 : size > b.totalFree
    · rw [if_neg h1, if_pos h2]
      exact ⟨fun _ => rfl, fun h => h⟩
    · rw [if_neg h1, if_neg h2]
      cases hf with
      | inl hf =>
        refine ⟨fun hnull => ?_, fun _ => ?_⟩
        · rw [Book.allocateLoop_null size b.totalPages b hf htp hoff hdata hnull]
          dsimp only
          rw [Nat.add_mod_right, Nat.mod_eq_of_lt hf]
        · have hc := Book.allocateLoop_cursor size b.totalPages b hf htp
          rw [hc.2]
          exact hc.1
      | inr h0 =>
        rw [h0]
        refine ⟨fun _ => rfl, fun h => ?_⟩
        omega

/-- Witness for C37: on `rotBook` a request of 4000 bytes is below `totalFree` and is
refused by every page; the book is unchanged. -/
theorem book_failed_allocate_is_noop_witness :
    (rotBook.allocate 4000).1 = 0 ∧ 4000 ≤ rotBook.totalFree ∧
    (rotBook.allocate 4000).2 = rotBook ∧
    (rotBook.allocate 4000).2.freePageIndex < (rotBook.allocate 4000).2.totalPages :=
  have key := book_failed_allocate_is_noop rotBook 4000 (Or.inl (by decide)) (by decide)
    (by decide) (by decide)
  ⟨by decide, by decide, key.1 (by decide), key.2 (by decide)⟩

/-- C38, as stated (`Page::allocate` refuses whenever the exact sum `offset + size`
exceeds `pageSize`, also when the sum wraps around), fails: on a page of 4096 bytes
with `offset = 16` a request of `2^32 − 16` bytes is accepted, because
`offset + size` wraps around to 0; the call returns location 16 and leaves
`offset = 0`. -/
theorem page_allocate_accepts_wrapping_request :
    (16 : Nat) ≤ 4096 ∧ 16 + (2 ^ 32 - 16) > 4096 ∧ 2 ^ 32 - 16 < 2 ^ 32 ∧
    (⟨16, 16⟩ : Page).allocate (2 ^ 32 - 16) 4096 = (16, ⟨0, 0⟩) := by
  decide

/-- C38, amended: for all 32-bit `offset`, `size` and `pageSize` whose sum
`offset + size` does not wrap around (it is below `2^32`), whenever `offset + size`
exceeds `pageSize`, `Page::allocate` returns `NOT_ALLOCATED` and leaves the page
unchanged. -/
theorem page_allocate_refuses_without_wrap (p : Page) (size pageSize : Nat)
    (hnw : p.offset + size < 2 ^ 32) (hgt : p.offset + size > pageSize) :
    p.allocate size pageSize = (NOT_ALLOCATED, p) := by
  unfold Page.allocate
  rw [add32_of_lt _ _ hnw, if_pos hgt]

/-- Witness for C38: a page of 4096 bytes with `offset = 4000` refuses 200 bytes. -/
theorem page_allocate_refuses_without_wrap_witness :
    (4000 : Nat) + 200 < 2 ^ 32 ∧ 4000 + 200 > 4096 ∧
    (⟨4000, 4000⟩ : Page).allocate 200 4096 = (NOT_ALLOCATED, ⟨4000, 4000⟩) :=
  ⟨by decide, by decide,
    page_allocate_refuses_without_wrap ⟨4000, 4000⟩ 200 4096 (by decide) (by decide)⟩

/-- C39 (the byte count `grow` requests is the exact product, and the new capacity
exceeds the old one), evaluated with heaps that refuse exactly one request size, so
that `grow` fails exactly when it asks for that size. For 8 byte keys and values and a
table of capacity `2^27`, `grow` asks for `2147483648` bytes, while
`2^28 × (8 + 8 + 8) = 6442450944`. For a table of capacity `2^31`, `grow` asks for
`1536 = 64 × 24` bytes: `2 × capacity` wraps around to 0 and the new capacity is 64. -/
theorem grow_request_wraps_around :
    (grow th88 1 ⟨fun _ => 0, 0, refusingHeap 2147483648, []⟩ table2p27).map
      (fun r => (r.1, r.2.1, r.2.2.heapCalls)) = some (false, table2p27, 1) ∧
    2 ^ 27 * 2 * (8 + 8 + 8) = 6442450944 ∧
    2 ^ 27 * 24 < 2 ^ 32 ∧
    (grow th88 1 ⟨fun _ => 0, 0, refusingHeap 1536, []⟩
      { table2p27 with capacity := 2 ^ 31 }).map
      (fun r => (r.1, r.2.1.capacity, r.2.2.heapCalls)) = some (false, 2 ^ 31, 1) := by
  decide

/-- C40 (`Book::reallocate(null, size, nsize)` behaves as `Book::allocate(nsize)`),
evaluated on a fresh book with one page of 4096 bytes at address 65536:
`reallocate(null, 16, 32)` returns 65536 and leaves the book that `allocate(16)`
leaves (page cursor 16, `totalFree = 4080`), while `allocate(32)` leaves page cursor
32 and `totalFree = 4064`; the next `allocate(16)` returns 65552, inside the 32 bytes
the caller asked for. -/
theorem book_reallocate_null_allocates_old_size :
    (Book.construct 4096 1 65536).reallocate 0 16 32 = (65536, wrapBook1) ∧
    (Book.construct 4096 1 65536).allocate 16 = (65536, wrapBook1) ∧
    (Book.construct 4096 1 65536).allocate 32
      = (65536, { wrapBook1 with totalFree := 4064, pages := [⟨32, 32⟩] }) ∧
    (((Book.construct 4096 1 65536).reallocate 0 16 32).2.allocate 16).1 = 65552 := by
  decide

end das
